import Mathlib

/-!
Verification of the laboneq compiler core: signature engine
(`laboneq/compiler/code_generator/signatures.py`), schedule nodes
(`laboneq/compiler/scheduler/case_schedule.py`,
`laboneq/compiler/scheduler/loop_iteration_schedule.py`) and the near-time
executor (`laboneq/compiler/workflow/neartime_execution.py`).

Python floats are idealised as elements of a linear ordered field (instantiated
at `ℚ` for executable checks and at `ℝ` where the constant `math.pi` matters).
Python `%` on floats, `round` (banker's rounding, half to even) and the missing
`normalize_phase` helper are modelled explicitly below.
-/

namespace LabOneQ

/-- Python float modulo: `x % y = x - y * floor (x / y)`; for `y > 0` the
result lies in `[0, y)`.  This is the semantics of the `% (2 * math.pi)`
operations in `signatures.py`. -/
def pymod {α : Type} [LinearOrderedField α] [FloorRing α] (x y : α) : α :=
  x - y * ⌊x / y⌋

/-- Python `round`: round half to even (banker's rounding), as used by
`round(...)` in `signatures.py`.  Away from exact halves it agrees with
rounding to the nearest integer. -/
def pyRound {α : Type} [LinearOrderedField α] [FloorRing α] [DecidableEq α]
    (x : α) : ℤ :=
  if Int.fract x = 1 / 2 then (if Even ⌊x⌋ then ⌊x⌋ else ⌊x⌋ + 1) else round x

/-- Modelled from the spec: `normalize_phase` from
`laboneq.compiler.code_generator.utils` (imported by `signatures.py` but not
under `src/`).  The spec states that it normalizes a phase into `[0, 2π)`;
we model it as the `2π`-periodic representative `x % (2π)`. -/
def normalize_phase {α : Type} [LinearOrderedField α] [FloorRing α]
    (pi x : α) : α :=
  pymod x (2 * pi)

/-- `PulseSignature` from `signatures.py`: signature of a single pulse, part of
a sampled waveform.  User pulse parameters (a Python `frozenset` of
`(name, value)` tuples) are carried as a list in insertion order; structural
(frozenset) equality of two parameter lists is equality of the underlying
finite sets. -/
structure PulseSignature (α : Type) where
  start : ℤ
  pulse : Option String
  length : ℤ
  amplitude : Option α
  phase : Option α
  oscillator_phase : Option α
  oscillator_frequency : Option α
  baseband_phase : Option α
  channel : Option ℤ
  sub_channel : Option ℤ
  pulse_parameters : List (String × α)
  markers : Option String
  deriving Repr, DecidableEq

/-- `WaveformSignature` from `signatures.py`: length plus the ordered tuple of
pulse signatures. -/
structure WaveformSignature (α : Type) where
  length : ℤ
  pulses : List (PulseSignature α)
  deriving Repr, DecidableEq

/-- `PlaybackSignature` from `signatures.py`: the signature of the output of a
single playback command. -/
structure PlaybackSignature (α : Type) where
  waveform : Option (WaveformSignature α)
  hw_oscillator : Option String
  pulse_parameters : List (List (String × α))
  state : Option ℤ := none
  set_phase : Option α := none
  increment_phase : Option α := none
  clear_precompensation : Bool := false
  deriving Repr, DecidableEq

variable {α : Type} [LinearOrderedField α] [FloorRing α] [DecidableEq α]

/-- One quantization step of `PlaybackSignature.quantize_phase`:
`normalize_phase(round(x / 2 / pi * r) / r * 2 * pi)` with `r` the number of
discrete steps over `2π`. -/
def quantizeStep (pi : α) (r : ℤ) (x : α) : α :=
  normalize_phase pi ((pyRound (x / 2 / pi * r) : α) / r * 2 * pi)

/-- `PlaybackSignature.quantize_phase` from `signatures.py`.  The phase baked
into each pulse is quantized to `phase_resolution_range` steps over `2π`;
`set_phase` and `increment_phase` are quantized to a fixed `2^48`-step grid.
The Python method dereferences `self.waveform.pulses` unconditionally, so a
signature without a waveform raises (`none` here); on success the mutated
signature is returned. -/
def PlaybackSignature.quantize_phase (pi : α) (phase_resolution_range : ℤ)
    (s : PlaybackSignature α) : Option (PlaybackSignature α) :=
  match s.waveform with
  | none => none
  | some w =>
    let pulses := w.pulses.map fun p =>
      { p with phase := p.phase.map (quantizeStep pi phase_resolution_range) }
    some { s with
      waveform := some { w with pulses := pulses }
      set_phase := s.set_phase.map (quantizeStep pi (2 ^ 48))
      increment_phase := s.increment_phase.map (quantizeStep pi (2 ^ 48)) }

/-- The final loop of `reduce_signature_phase`: the baseband phase and the
(software) oscillator phase of each pulse are folded into the baked-in pulse
phase and cleared. -/
def absorbPulsePhase (p : PulseSignature α) : PulseSignature α :=
  let p1 :=
    match p.baseband_phase with
    | none => p
    | some b => { p with phase := some (p.phase.getD 0 + b), baseband_phase := none }
  match p1.oscillator_phase with
  | none => p1
  | some o => { p1 with phase := some (p1.phase.getD 0 + o), oscillator_phase := none }

/-- `reduce_signature_phase` from `signatures.py`.  Works on a copy of the
signature (value semantics here).  With `use_ct_phase` the trailing pulse's
baseband phase becomes the new hardware oscillator phase (emitted as
`increment_phase` relative to `prev_hw_oscillator_phase` when that is known,
as `set_phase` otherwise) and every pulse's baseband phase is re-expressed
relative to it; finally all remaining baseband/oscillator phase is absorbed
into the baked-in pulse phase.  The Python function dereferences
`signature.waveform.pulses` (and, with `use_ct_phase`, `pulses[-1]`)
unconditionally; those failure cases are `none`. -/
def reduce_signature_phase (pi : α) (s : PlaybackSignature α)
    (use_ct_phase : Bool) (prev_hw_oscillator_phase : Option α) :
    Option (PlaybackSignature α) :=
  match s.waveform with
  | none => none
  | some w =>
    if use_ct_phase then
      match w.pulses.getLast? with
      | none => none
      | some lastPulse =>
        let this_hw : α := lastPulse.baseband_phase.getD 0
        let s1 :=
          match prev_hw_oscillator_phase with
          | some prev =>
            let increment := pymod (this_hw - prev) (2 * pi)
            if increment ≠ 0 then { s with increment_phase := some increment } else s
          | none => { s with set_phase := some this_hw }
        let pulses1 := w.pulses.map fun p =>
          { p with baseband_phase := some (pymod (p.baseband_phase.getD 0 - this_hw) (2 * pi)) }
        some { s1 with waveform := some { w with pulses := pulses1.map absorbPulsePhase } }
    else
      some { s with waveform := some { w with pulses := w.pulses.map absorbPulsePhase } }

/-! ### Arithmetic facts about `pymod`, `pyRound` and `quantizeStep` -/

lemma pymod_eq_mul_fract {α : Type} [LinearOrderedField α] [FloorRing α]
    {y : α} (hy : y ≠ 0) (x : α) : pymod x y = y * Int.fract (x / y) := by
  unfold pymod Int.fract
  field_simp

lemma pymod_nonneg {α : Type} [LinearOrderedField α] [FloorRing α]
    {y : α} (hy : 0 < y) (x : α) : 0 ≤ pymod x y := by
  rw [pymod_eq_mul_fract hy.ne' x]
  exact mul_nonneg hy.le (Int.fract_nonneg _)

lemma pymod_lt {α : Type} [LinearOrderedField α] [FloorRing α]
    {y : α} (hy : 0 < y) (x : α) : pymod x y < y := by
  rw [pymod_eq_mul_fract hy.ne' x]
  calc y * Int.fract (x / y) < y * 1 :=
        mul_lt_mul_of_pos_left (Int.fract_lt_one _) hy
    _ = y := mul_one y

lemma pymod_eq_self {α : Type} [LinearOrderedField α] [FloorRing α]
    {x y : α} (h0 : 0 ≤ x) (hxy : x < y) : pymod x y = x := by
  have hy : 0 < y := lt_of_le_of_lt h0 hxy
  have hfloor : ⌊x / y⌋ = 0 := by
    rw [Int.floor_eq_zero_iff]
    constructor
    · exact div_nonneg h0 hy.le
    · rw [div_lt_one hy]; exact hxy
  unfold pymod
  rw [hfloor]
  simp

lemma pyRound_intCast {α : Type} [LinearOrderedField α] [FloorRing α]
    [DecidableEq α] (m : ℤ) : pyRound ((m : ℤ) : α) = m := by
  unfold pyRound
  rw [Int.fract_intCast]
  have h2 : (0 : α) ≠ 1 / 2 := by norm_num
  rw [if_neg h2, round_intCast]

/-- `quantizeStep` in closed form: the result is `2π · (n mod r) / r` where
`n` is the rounded number of steps. -/
lemma quantizeStep_eq {α : Type} [LinearOrderedField α] [FloorRing α]
    [DecidableEq α] {pi : α} (hpi : 0 < pi) {r : ℤ} (hr : 0 < r) (x : α) :
    quantizeStep pi r x
      = 2 * pi * ((pyRound (x / 2 / pi * r) % r : ℤ) : α) / (r : α) := by
  have hrα : (0 : α) < (r : α) := by exact_mod_cast hr
  have h2pi : (0 : α) < 2 * pi := by linarith
  set n : ℤ := pyRound (x / 2 / pi * r) with hn
  have hdecomp : n = r * (n / r) + n % r := (Int.ediv_add_emod n r).symm
  unfold quantizeStep normalize_phase pymod
  have hv : ((n : α) / r * 2 * pi) / (2 * pi) = (n : α) / r := by
    field_simp
    ring
  rw [hv]
  have hcast : (n : α) = (r : α) * ((n / r : ℤ) : α) + ((n % r : ℤ) : α) := by
    exact_mod_cast congrArg (fun z : ℤ => (z : α)) hdecomp
  have hfr : (n : α) / r = ((n / r : ℤ) : α) + ((n % r : ℤ) : α) / (r : α) := by
    rw [hcast]
    field_simp
    ring
  have hmem0 : (0 : α) ≤ ((n % r : ℤ) : α) / (r : α) := by
    apply div_nonneg _ hrα.le
    exact_mod_cast Int.emod_nonneg n hr.ne'
  have hmem1 : ((n % r : ℤ) : α) / (r : α) < 1 := by
    rw [div_lt_one hrα]
    exact_mod_cast Int.emod_lt_of_pos n hr
  have hfloor : ⌊(n : α) / r⌋ = n / r := by
    rw [hfr, add_comm, Int.floor_add_int]
    rw [Int.floor_eq_zero_iff.mpr ⟨hmem0, hmem1⟩]
    simp
  rw [hfloor, hfr]
  field_simp
  ring

lemma quantizeStep_mem {α : Type} [LinearOrderedField α] [FloorRing α]
    [DecidableEq α] {pi : α} (hpi : 0 < pi) {r : ℤ} (hr : 0 < r) (x : α) :
    0 ≤ quantizeStep pi r x ∧ quantizeStep pi r x < 2 * pi := by
  rw [quantizeStep_eq hpi hr]
  have hrα : (0 : α) < (r : α) := by exact_mod_cast hr
  have h2pi : (0 : α) < 2 * pi := by linarith
  have hm0 : (0 : α) ≤ ((pyRound (x / 2 / pi * r) % r : ℤ) : α) := by
    exact_mod_cast Int.emod_nonneg _ hr.ne'
  have hm1 : ((pyRound (x / 2 / pi * r) % r : ℤ) : α) < (r : α) := by
    exact_mod_cast Int.emod_lt_of_pos _ hr
  constructor
  · positivity
  · rw [div_lt_iff₀ hrα]
    nlinarith

lemma quantizeStep_idem {α : Type} [LinearOrderedField α] [FloorRing α]
    [DecidableEq α] {pi : α} (hpi : 0 < pi) {r : ℤ} (hr : 0 < r) (x : α) :
    quantizeStep pi r (quantizeStep pi r x) = quantizeStep pi r x := by
  have hrα : (0 : α) < (r : α) := by exact_mod_cast hr
  have h2pi : (0 : α) < 2 * pi := by linarith
  set m : ℤ := pyRound (x / 2 / pi * r) % r with hm
  have hq : quantizeStep pi r x = 2 * pi * (m : α) / (r : α) :=
    quantizeStep_eq hpi hr x
  have harg : (2 * pi * (m : α) / (r : α)) / 2 / pi * r = (m : α) := by
    field_simp
    ring
  have hmem := quantizeStep_mem hpi hr x
  rw [hq] at hmem ⊢
  unfold quantizeStep
  rw [harg, pyRound_intCast]
  have hval : ((m : ℤ) : α) / r * 2 * pi = 2 * pi * (m : α) / (r : α) := by
    field_simp
    ring
  rw [hval]
  unfold normalize_phase
  exact pymod_eq_self hmem.1 hmem.2

lemma absorbPulsePhase_clears {α : Type} [LinearOrderedField α]
    (p : PulseSignature α) :
    (absorbPulsePhase p).baseband_phase = none
      ∧ (absorbPulsePhase p).oscillator_phase = none := by
  rcases hb : p.baseband_phase with _ | b <;>
    rcases ho : p.oscillator_phase with _ | o <;>
      simp [absorbPulsePhase, hb, ho]

lemma absorbPulsePhase_sum {α : Type} [LinearOrderedField α]
    (p : PulseSignature α) (x b o : α) (hp : p.phase = some x)
    (hb : p.baseband_phase = some b) (ho : p.oscillator_phase = some o) :
    (absorbPulsePhase p).phase = some (x + b + o) := by
  simp [absorbPulsePhase, hp, hb, ho]

/-- Concrete pulse used for the phase-absorption counterexample: baked phase
`3`, oscillator phase `3`, baseband phase `3`; their sum `9` exceeds `2π`. -/
def phPulse : PulseSignature ℝ :=
  { start := 0, pulse := some "gauss", length := 16, amplitude := some 1,
    phase := some 3, oscillator_phase := some 3, oscillator_frequency := none,
    baseband_phase := some 3, channel := none, sub_channel := none,
    pulse_parameters := [], markers := none }

/-- Concrete playback signature holding `phPulse`. -/
def phSig : PlaybackSignature ℝ :=
  { waveform := some { length := 16, pulses := [phPulse] },
    hw_oscillator := none, pulse_parameters := [] }

/-- Claim C3, counterexample: `reduce_signature_phase` (with
`use_ct_phase = False`) folds the baseband and oscillator phases into the
pulse phase WITHOUT normalizing the sum into `[0, 2π)`.  For baked phase `3`,
baseband phase `3` and oscillator phase `3` the resulting pulse phase is `9`,
whereas the claim asserts it equals `normalize(3 + 3 + 3) = 9 - 2π ≠ 9`. -/
theorem C3_counterexample :
    ((reduce_signature_phase Real.pi phSig false none).bind
        (fun t => t.waveform)).map (fun w => w.pulses.map (fun p => p.phase))
      = some [some 9]
    ∧ normalize_phase Real.pi (3 + 3 + 3) ≠ 9 := by
  constructor
  · have h : (absorbPulsePhase phPulse).phase = some ((3 : ℝ) + 3 + 3) :=
      absorbPulsePhase_sum phPulse 3 3 3 rfl rfl rfl
    simp [reduce_signature_phase, phSig, h]
    norm_num
  · have hpi := Real.pi_pos
    have hlt : Real.pi < 3.15 := Real.pi_lt_d2
    have hgt : 3.14 < Real.pi := Real.pi_gt_d2
    have h2pi : (0 : ℝ) < 2 * Real.pi := by linarith
    have hfloor : ⌊(3 + 3 + 3 : ℝ) / (2 * Real.pi)⌋ = 1 := by
      rw [Int.floor_eq_iff]
      constructor
      · rw [le_div_iff₀ h2pi]; push_cast; linarith
      · rw [div_lt_iff₀ h2pi]; push_cast; linarith
    unfold normalize_phase pymod
    rw [hfloor]
    intro hcontra
    have : 2 * Real.pi * (1 : ℤ) = 0 := by linarith
    simp at this
    linarith

/-- Claim C3, amended: for a `PlaybackSignature` with a waveform, after
`reduce_signature_phase` with `use_ct_phase = False` a pulse with baked phase
`p`, baseband phase `b` and oscillator phase `o` carries phase exactly
`p + b + o` (the plain sum, not normalized into `[0, 2π)`), its
`baseband_phase` and `oscillator_phase` are `None`, and no pulse of the
returned signature carries any residual baseband or oscillator phase. -/
theorem C3_amended_phase_absorption (s : PlaybackSignature ℝ)
    (w : WaveformSignature ℝ) (hw : s.waveform = some w) (prev : Option ℝ) :
    ∃ w2 : WaveformSignature ℝ,
      reduce_signature_phase Real.pi s false prev
          = some { s with waveform := some w2 }
      ∧ w2.length = w.length
      ∧ w2.pulses.length = w.pulses.length
      ∧ (∀ q ∈ w2.pulses,
          q.baseband_phase = none ∧ q.oscillator_phase = none)
      ∧ (∀ i (hi : i < w.pulses.length) (p b o : ℝ),
          (w.pulses.get ⟨i, hi⟩).phase = some p →
          (w.pulses.get ⟨i, hi⟩).baseband_phase = some b →
          (w.pulses.get ⟨i, hi⟩).oscillator_phase = some o →
          ∃ hi2 : i < w2.pulses.length,
            (w2.pulses.get ⟨i, hi2⟩).phase = some (p + b + o)) := by
  refine ⟨{ w with pulses := w.pulses.map absorbPulsePhase }, ?_, rfl, by simp, ?_, ?_⟩
  · simp [reduce_signature_phase, hw]
  · intro q hq
    rw [List.mem_map] at hq
    obtain ⟨p0, _, hp0⟩ := hq
    rw [← hp0]
    exact absorbPulsePhase_clears p0
  · intro i hi p b o hp hb ho
    refine ⟨by simpa using hi, ?_⟩
    have hget : (w.pulses.map absorbPulsePhase).get ⟨i, by simpa using hi⟩
        = absorbPulsePhase (w.pulses.get ⟨i, hi⟩) := by
      simp
    simp only [hget]
    exact absorbPulsePhase_sum _ p b o hp hb ho

/-- Concrete input witnessing the amended claim C3. -/
theorem C3_amended_witness :
    phSig.waveform = some { length := 16, pulses := [phPulse] } ∧
    ∃ w2 : WaveformSignature ℝ,
      reduce_signature_phase Real.pi phSig false none
          = some { phSig with waveform := some w2 }
      ∧ w2.length = (16 : ℤ)
      ∧ w2.pulses.length = [phPulse].length
      ∧ (∀ q ∈ w2.pulses,
          q.baseband_phase = none ∧ q.oscillator_phase = none)
      ∧ (∀ i (hi : i < [phPulse].length) (p b o : ℝ),
          ([phPulse].get ⟨i, hi⟩).phase = some p →
          ([phPulse].get ⟨i, hi⟩).baseband_phase = some b →
          ([phPulse].get ⟨i, hi⟩).oscillator_phase = some o →
          ∃ hi2 : i < w2.pulses.length,
            (w2.pulses.get ⟨i, hi2⟩).phase = some (p + b + o)) :=
  ⟨rfl, C3_amended_phase_absorption phSig { length := 16, pulses := [phPulse] } rfl none⟩

/-- Claim C8: `quantize_phase` is idempotent.  For any playback signature with
a waveform and any positive `phase_resolution_range`, applying
`quantize_phase` twice with the same resolution yields exactly the signature
obtained by applying it once (a fixed point is reached after the first call),
and after one application every quantized phase (pulse-baked phases,
`set_phase`, `increment_phase`) lies in `[0, 2π)`. -/
theorem C8_quantize_phase_idempotent (s : PlaybackSignature ℝ)
    (w : WaveformSignature ℝ) (hw : s.waveform = some w) (R : ℤ) (hR : 0 < R) :
    ∃ t : PlaybackSignature ℝ,
      PlaybackSignature.quantize_phase Real.pi R s = some t
      ∧ PlaybackSignature.quantize_phase Real.pi R t = some t
      ∧ (PlaybackSignature.quantize_phase Real.pi R s).bind
          (PlaybackSignature.quantize_phase Real.pi R)
          = PlaybackSignature.quantize_phase Real.pi R s
      ∧ (∀ w2, t.waveform = some w2 → ∀ p ∈ w2.pulses, ∀ x, p.phase = some x →
          0 ≤ x ∧ x < 2 * Real.pi)
      ∧ (∀ x, t.set_phase = some x → 0 ≤ x ∧ x < 2 * Real.pi)
      ∧ (∀ x, t.increment_phase = some x → 0 ≤ x ∧ x < 2 * Real.pi) := by
  have hpi := Real.pi_pos
  have hR48 : (0 : ℤ) < 2 ^ 48 := by positivity
  set qp : PulseSignature ℝ → PulseSignature ℝ :=
    fun p => { p with phase := p.phase.map (quantizeStep Real.pi R) } with hqp
  set t : PlaybackSignature ℝ := { s with
      waveform := some { w with pulses := w.pulses.map qp }
      set_phase := s.set_phase.map (quantizeStep Real.pi ((2 : ℤ) ^ 48))
      increment_phase :=
        s.increment_phase.map (quantizeStep Real.pi ((2 : ℤ) ^ 48)) } with ht
  have hqpqp : ∀ p, qp (qp p) = qp p := by
    intro p
    cases hph : p.phase <;> simp [hqp, hph, quantizeStep_idem hpi hR]
  have h1 : PlaybackSignature.quantize_phase Real.pi R s = some t := by
    simp [PlaybackSignature.quantize_phase, hw, ht, hqp]
  have h2 : PlaybackSignature.quantize_phase Real.pi R t = some t := by
    rw [ht]
    simp only [PlaybackSignature.quantize_phase, List.map_map, Option.map_map]
    have hl : w.pulses.map (qp ∘ qp) = w.pulses.map qp :=
      List.map_congr_left (fun p _ => hqpqp p)
    have hs2 : ∀ u : Option ℝ,
        u.map (quantizeStep Real.pi ((2 : ℤ) ^ 48) ∘
            quantizeStep Real.pi ((2 : ℤ) ^ 48))
          = u.map (quantizeStep Real.pi ((2 : ℤ) ^ 48)) := by
      intro u
      cases u
      · simp
      · rw [Option.map_some', Option.map_some', Function.comp_apply,
          quantizeStep_idem hpi hR48]
    simp only [hl, hs2]
  refine ⟨t, h1, h2, by rw [h1]; exact h2, ?_, ?_, ?_⟩
  · intro w2 hw2 p hp x hx
    rw [ht] at hw2
    simp only [Option.some.injEq] at hw2
    rw [← hw2] at hp
    simp only [List.mem_map] at hp
    obtain ⟨p0, _, hp0⟩ := hp
    rw [← hp0, hqp] at hx
    simp only [Option.map_eq_some'] at hx
    obtain ⟨y, _, hy⟩ := hx
    rw [← hy]
    exact quantizeStep_mem hpi hR y
  · intro x hx
    rw [ht] at hx
    simp only [Option.map_eq_some'] at hx
    obtain ⟨y, _, hy⟩ := hx
    rw [← hy]
    exact quantizeStep_mem hpi hR48 y
  · intro x hx
    rw [ht] at hx
    simp only [Option.map_eq_some'] at hx
    obtain ⟨y, _, hy⟩ := hx
    rw [← hy]
    exact quantizeStep_mem hpi hR48 y

/-- Concrete waveform used as witness input for claim C8. -/
def qWave : WaveformSignature ℝ :=
  { length := 8,
    pulses := [ { start := 0, pulse := some "const", length := 8,
                  amplitude := some 1, phase := some 1,
                  oscillator_phase := none, oscillator_frequency := none,
                  baseband_phase := none, channel := none, sub_channel := none,
                  pulse_parameters := [], markers := none } ] }

/-- Concrete playback signature used as witness input for claim C8. -/
def qSig : PlaybackSignature ℝ :=
  { waveform := some qWave, hw_oscillator := none, pulse_parameters := [],
    set_phase := some 7, increment_phase := none }

/-- Witness for claim C8 at a concrete signature and resolution 4. -/
theorem C8_quantize_witness :
    qSig.waveform = some qWave ∧ (0 : ℤ) < 4 ∧
    ∃ t : PlaybackSignature ℝ,
      PlaybackSignature.quantize_phase Real.pi 4 qSig = some t
      ∧ PlaybackSignature.quantize_phase Real.pi 4 t = some t
      ∧ (PlaybackSignature.quantize_phase Real.pi 4 qSig).bind
          (PlaybackSignature.quantize_phase Real.pi 4)
          = PlaybackSignature.quantize_phase Real.pi 4 qSig
      ∧ (∀ w2, t.waveform = some w2 → ∀ p ∈ w2.pulses, ∀ x, p.phase = some x →
          0 ≤ x ∧ x < 2 * Real.pi)
      ∧ (∀ x, t.set_phase = some x → 0 ≤ x ∧ x < 2 * Real.pi)
      ∧ (∀ x, t.increment_phase = some x → 0 ≤ x ∧ x < 2 * Real.pi) :=
  ⟨rfl, by norm_num, C8_quantize_phase_idempotent qSig qWave rfl 4 (by norm_num)⟩

/-- Claim C10: the data model allows `waveform = None`, but `quantize_phase`
and `reduce_signature_phase` (for either value of `use_ct_phase`) dereference
`signature.waveform.pulses` unconditionally, so they fail on a waveform-less
signature; `reduce_signature_phase` with `use_ct_phase = True` additionally
requires a non-empty pulse tuple (it indexes `pulses[-1]`); under those
preconditions both functions are total. -/
theorem C10_waveform_precondition :
    (∀ (s : PlaybackSignature ℝ) (R : ℤ), s.waveform = none →
        PlaybackSignature.quantize_phase Real.pi R s = none)
    ∧ (∀ (s : PlaybackSignature ℝ) (ct : Bool) (prev : Option ℝ),
        s.waveform = none →
        reduce_signature_phase Real.pi s ct prev = none)
    ∧ (∀ (s : PlaybackSignature ℝ) (w : WaveformSignature ℝ) (prev : Option ℝ),
        s.waveform = some w → w.pulses = [] →
        reduce_signature_phase Real.pi s true prev = none)
    ∧ (∀ (s : PlaybackSignature ℝ) (w : WaveformSignature ℝ) (R : ℤ)
        (prev : Option ℝ), s.waveform = some w →
        (PlaybackSignature.quantize_phase Real.pi R s).isSome
        ∧ (reduce_signature_phase Real.pi s false prev).isSome
        ∧ (w.pulses ≠ [] →
            (reduce_signature_phase Real.pi s true prev).isSome)) := by
  refine ⟨?_, ?_, ?_, ?_⟩
  · intro s R hs
    simp [PlaybackSignature.quantize_phase, hs]
  · intro s ct prev hs
    simp [reduce_signature_phase, hs]
  · intro s w prev hw hpulses
    simp [reduce_signature_phase, hw, hpulses]
  · intro s w R prev hw
    refine ⟨?_, ?_, ?_⟩
    · simp [PlaybackSignature.quantize_phase, hw]
    · simp [reduce_signature_phase, hw]
    · intro hne
      have hlast : (w.pulses.getLast? ).isSome := by
        rw [List.getLast?_isSome]
        exact hne
      obtain ⟨lastPulse, hlp⟩ := Option.isSome_iff_exists.mp hlast
      simp only [reduce_signature_phase, hw, hlp]
      cases prev with
      | none => simp
      | some pv =>
        by_cases hz : pymod ((lastPulse.baseband_phase.getD 0) - pv)
            (2 * Real.pi) ≠ 0 <;> simp [hz]

/-- Signature without a waveform, witness input for claim C10. -/
def noWaveSig : PlaybackSignature ℝ :=
  { waveform := none, hw_oscillator := none, pulse_parameters := [] }

/-- Signature whose waveform has an empty pulse tuple, witness input for
claim C10. -/
def emptyPulsesSig : PlaybackSignature ℝ :=
  { waveform := some { length := 4, pulses := [] }, hw_oscillator := none,
    pulse_parameters := [] }

/-- Witness for claim C10 at concrete signatures. -/
theorem C10_waveform_witness :
    noWaveSig.waveform = (none : Option (WaveformSignature ℝ))
    ∧ PlaybackSignature.quantize_phase Real.pi 4 noWaveSig = none
    ∧ reduce_signature_phase Real.pi noWaveSig true none = none
    ∧ emptyPulsesSig.waveform = some { length := 4, pulses := [] }
    ∧ reduce_signature_phase Real.pi emptyPulsesSig true none = none
    ∧ qSig.waveform = some qWave
    ∧ (PlaybackSignature.quantize_phase Real.pi 4 qSig).isSome
    ∧ (reduce_signature_phase Real.pi qSig false none).isSome
    ∧ (qWave.pulses ≠ [] → (reduce_signature_phase Real.pi qSig true none).isSome) :=
  ⟨rfl,
   C10_waveform_precondition.1 noWaveSig 4 rfl,
   C10_waveform_precondition.2.1 noWaveSig true none rfl,
   rfl,
   C10_waveform_precondition.2.2.1 emptyPulsesSig { length := 4, pulses := [] }
     none rfl rfl,
   rfl,
   (C10_waveform_precondition.2.2.2 qSig qWave 4 none rfl).1,
   (C10_waveform_precondition.2.2.2 qSig qWave 4 none rfl).2.1,
   (C10_waveform_precondition.2.2.2 qSig qWave 4 none rfl).2.2⟩

/-! ### Stable hashing and the signature string (`WaveformSignature` methods)

The executable instance uses `ℚ` for the numeric fields (Python floats are
dyadic rationals; NaN/inf are excluded by contract, and the claims under test
do not involve float rounding of sums). -/

/-- Deterministic rendering of a rational number, modelling the canonical
(deterministic, value-injective) representation orjson emits for a float. -/
def ratStr (q : ℚ) : String :=
  toString q.num ++ "/" ++ toString q.den

/-- Rendering of an optional value; `None` serializes as `null`. -/
def optStr {β : Type} (f : β → String) : Option β → String
  | none => "null"
  | some x => f x

/-- JSON string literal (the field values at play contain no escapes). -/
def strLit (s : String) : String :=
  "\"" ++ s ++ "\""

/-- The `default` hook of `WaveformSignature.stable_hash` canonicalizes the
`pulse_parameters` frozenset to `tuple(sorted(obj))`: the underlying set of
`(name, value)` pairs, sorted lexicographically.  Duplicates are absent by
construction in a frozenset; sorting makes the iteration order canonical. -/
def canonParams (l : List (String × ℚ)) : List (Lex (String × ℚ)) :=
  (l.map (fun kv => (toLex kv : Lex (String × ℚ)))).toFinset.sort (· ≤ ·)

/-- Serialization of the canonicalized `pulse_parameters` frozenset as a JSON
array of `[name, value]` pairs. -/
def serializeParams (l : List (String × ℚ)) : String :=
  "[" ++ String.intercalate ","
      ((canonParams l).map fun kv =>
        "[" ++ strLit (ofLex kv).1 ++ "," ++ ratStr (ofLex kv).2 ++ "]")
    ++ "]"

/-- orjson serialization of one `PulseSignature` dataclass with
`OPT_SORT_KEYS`: a JSON object with the field names in sorted order. -/
def serializePulse (p : PulseSignature ℚ) : String :=
  "\x7b\"amplitude\":" ++ optStr ratStr p.amplitude
    ++ ",\"baseband_phase\":" ++ optStr ratStr p.baseband_phase
    ++ ",\"channel\":" ++ optStr toString p.channel
    ++ ",\"length\":" ++ toString p.length
    ++ ",\"markers\":" ++ optStr strLit p.markers
    ++ ",\"oscillator_frequency\":" ++ optStr ratStr p.oscillator_frequency
    ++ ",\"oscillator_phase\":" ++ optStr ratStr p.oscillator_phase
    ++ ",\"phase\":" ++ optStr ratStr p.phase
    ++ ",\"pulse\":" ++ optStr strLit p.pulse
    ++ ",\"pulse_parameters\":" ++ serializeParams p.pulse_parameters
    ++ ",\"start\":" ++ toString p.start
    ++ ",\"sub_channel\":" ++ optStr toString p.sub_channel
    ++ "\x7d"

/-- `orjson.dumps(self, option=orjson.OPT_SORT_KEYS | ..., default=default)`
applied to a `WaveformSignature`: deterministic JSON with sorted keys and the
frozenset canonicalization of `canonParams`. -/
def orjsonDumps (w : WaveformSignature ℚ) : String :=
  "\x7b\"length\":" ++ toString w.length
    ++ ",\"pulses\":[" ++ String.intercalate "," (w.pulses.map serializePulse)
    ++ "]\x7d"

/-- Hexadecimal rendering of `n` with `width` nibbles (big-endian). -/
def toHex (width n : ℕ) : String :=
  String.mk ((List.range width).map fun i =>
    Nat.digitChar ((n / 16 ^ (width - 1 - i)) % 16))

/-- Model of `hashlib.sha1(...).hexdigest()`: a fixed, deterministic
40-hex-character digest of the serialized byte string.  The claims under
verification depend only on the digest being a function of the serialized
content, not on the SHA-1 compression function itself, which is therefore
modelled by an explicit (non-cryptographic) digest. -/
def sha1HexModel (s : String) : String :=
  toHex 40 (s.data.foldl (fun h c => (h * 131 + c.toNat) % (2 ^ 160)) 5381)

/-- `WaveformSignature.stable_hash` from `signatures.py` (composed with
`hexdigest`): the digest of the deterministic serialization of the entire
structural content. -/
def WaveformSignature.stable_hash (w : WaveformSignature ℚ) : String :=
  sha1HexModel (orjsonDumps w)

/-- Structural identity of two pulse signatures in the Python sense: all
dataclass fields equal, where the `pulse_parameters` frozensets are equal as
sets (insertion order and duplicates in the construction are immaterial). -/
def pulseEquiv (p q : PulseSignature ℚ) : Prop :=
  p.start = q.start ∧ p.pulse = q.pulse ∧ p.length = q.length
    ∧ p.amplitude = q.amplitude ∧ p.phase = q.phase
    ∧ p.oscillator_phase = q.oscillator_phase
    ∧ p.oscillator_frequency = q.oscillator_frequency
    ∧ p.baseband_phase = q.baseband_phase
    ∧ p.channel = q.channel ∧ p.sub_channel = q.sub_channel
    ∧ p.pulse_parameters.toFinset = q.pulse_parameters.toFinset
    ∧ p.markers = q.markers

/-- Structural identity of two waveform signatures: same length and pointwise
structurally identical pulse tuples. -/
def waveformEquiv (v w : WaveformSignature ℚ) : Prop :=
  v.length = w.length ∧ List.Forall₂ pulseEquiv v.pulses w.pulses

lemma list_toFinset_map {β γ : Type} [DecidableEq β] [DecidableEq γ]
    (f : β → γ) (l : List β) : (l.map f).toFinset = l.toFinset.image f := by
  ext b
  simp

lemma canonParams_congr {l₁ l₂ : List (String × ℚ)}
    (h : l₁.toFinset = l₂.toFinset) : canonParams l₁ = canonParams l₂ := by
  unfold canonParams
  congr 1
  rw [list_toFinset_map, list_toFinset_map, h]

lemma serializePulse_congr {p q : PulseSignature ℚ} (h : pulseEquiv p q) :
    serializePulse p = serializePulse q := by
  obtain ⟨h1, h2, h3, h4, h5, h6, h7, h8, h9, h10, h11, h12⟩ := h
  unfold serializePulse serializeParams
  rw [h1, h2, h3, h4, h5, h6, h7, h8, h9, h10, h12, canonParams_congr h11]

lemma serialize_list_congr : ∀ {ps qs : List (PulseSignature ℚ)},
    List.Forall₂ pulseEquiv ps qs →
    ps.map serializePulse = qs.map serializePulse := by
  intro ps qs h
  induction h with
  | nil => rfl
  | cons hpq _ ih => simp [serializePulse_congr hpq, ih]

lemma orjsonDumps_congr {v w : WaveformSignature ℚ} (h : waveformEquiv v w) :
    orjsonDumps v = orjsonDumps w := by
  obtain ⟨hlen, hps⟩ := h
  unfold orjsonDumps
  rw [hlen, serialize_list_congr hps]

/-- Claim C2: `stable_hash` is structural and insertion-order independent.
Any two `WaveformSignature`s with identical structural content (same length,
same tuple of `PulseSignature` field values, with the `pulse_parameters`
frozensets compared as sets) produce an identical digest: the serialization
sorts keys and canonicalizes the frozensets to sorted tuples, so the digest
depends only on structural content, never on object identity or insertion
order. -/
theorem C2_stable_hash_structural (v w : WaveformSignature ℚ)
    (h : waveformEquiv v w) :
    WaveformSignature.stable_hash v = WaveformSignature.stable_hash w := by
  unfold WaveformSignature.stable_hash
  rw [orjsonDumps_congr h]

/-- First insertion order of the same parameter set. -/
def paramsPulseA : PulseSignature ℚ :=
  { start := 0, pulse := some "drag", length := 32, amplitude := some (1 / 2),
    phase := some 1, oscillator_phase := none, oscillator_frequency := none,
    baseband_phase := none, channel := some 1, sub_channel := none,
    pulse_parameters := [("amp", 1), ("width", 2)], markers := none }

/-- Second insertion order of the same parameter set. -/
def paramsPulseB : PulseSignature ℚ :=
  { paramsPulseA with pulse_parameters := [("width", 2), ("amp", 1)] }

/-- Witness for claim C2: the two insertion orders of the same parameter set
hash identically. -/
theorem C2_stable_hash_witness :
    waveformEquiv { length := 32, pulses := [paramsPulseA] }
        { length := 32, pulses := [paramsPulseB] }
    ∧ WaveformSignature.stable_hash { length := 32, pulses := [paramsPulseA] }
        = WaveformSignature.stable_hash { length := 32, pulses := [paramsPulseB] } := by
  have h : waveformEquiv { length := 32, pulses := [paramsPulseA] }
      { length := 32, pulses := [paramsPulseB] } := by
    refine ⟨rfl, ?_⟩
    refine List.Forall₂.cons ?_ List.Forall₂.nil
    refine ⟨rfl, rfl, rfl, rfl, rfl, rfl, rfl, rfl, rfl, rfl, ?_, rfl⟩
    decide
  exact ⟨h, C2_stable_hash_structural _ _ h⟩

/-! ### `WaveformSignature.signature_string` -/

/-- Python `str.zfill`: left-pad with zeros to the given width. -/
def zfill (width : ℕ) (s : String) : String :=
  if width ≤ s.length then s
  else String.mk (List.replicate (width - s.length) '0') ++ s

/-- One scaled, fixed-width field part of `signature_string`:
`separator + sign + str(abs(round(scale * value))).zfill(fill)`. -/
def fieldPart (sep : String) (scale : ℚ) (fill : ℕ) (v : ℚ) : String :=
  sep ++ (if v < 0 then "m" else "") ++
    zfill fill (toString (pyRound (scale * v)).natAbs)

/-- The `(key, separator, scale, fill)` table of `signature_string`, with each
key already resolved to the field value of the pulse (`start` and `length`
are plain ints, hence always present). -/
def pulseFieldTable (p : PulseSignature ℚ) : List (String × Option ℚ × ℚ × ℕ) :=
  [("_", some (p.start : ℚ), 1, 2),
   ("_a", p.amplitude, 1000000000, 10),
   ("_l", some (p.length : ℚ), 1, 3),
   ("_bb", p.baseband_phase, 1, 7),
   ("_c", p.channel.map (fun n => (n : ℚ)), 1, 0),
   ("_sc", p.sub_channel.map (fun n => (n : ℚ)), 1, 0),
   ("_ap", p.phase, 1, 0)]

/-- The inner field loop of `signature_string`: append field parts while the
total stays within 56 characters; on the first part that would exceed the
budget, stop and report the break (which aborts the outer pulse loop too).
`None`-valued fields are skipped without consuming budget. -/
def addFields : String → List (String × Option ℚ × ℚ × ℕ) → String × Bool
  | r, [] => (r, false)
  | r, (sep, v, scale, fill) :: rest =>
    match v with
    | none => addFields r rest
    | some x =>
      let np := fieldPart sep scale fill x
      if 56 < (r ++ np).length then (r, true)
      else addFields (r ++ np) rest

/-- The outer pulse loop of `signature_string`: the pulse name is appended
unconditionally, then the fields; a budget break inside the fields exits the
whole loop (Python for/else/break). -/
def addPulses : String → List (PulseSignature ℚ) → String
  | r, [] => r
  | r, p :: ps =>
    let r1 := r ++ "_" ++ p.pulse.getD ""
    match addFields r1 (pulseFieldTable p) with
    | (r2, true) => r2
    | (r2, false) => addPulses r2 ps

/-- Modelled from the spec: `string_sanitize` from
`laboneq.compiler.code_generator.seq_c_generator` (not under `src/`).  The
spec describes the result only as a human-debuggable name and prescribes no
transformation; on the alphanumeric/underscore strings produced here it is
modelled as the identity. -/
def string_sanitize (s : String) : String := s

/-- Python string slicing `s[:n]`: the first `n` characters. -/
def takePrefix (n : ℕ) (s : String) : String :=
  String.mk (s.data.take n)

/-- `WaveformSignature.signature_string` from `signatures.py`: the
`p_<length>` stem, the truncated per-pulse parts, and always the underscore
plus the first 7 hex characters of the stable hash. -/
def WaveformSignature.signature_string (w : WaveformSignature ℚ) : String :=
  string_sanitize (addPulses ("p_" ++ zfill 4 (toString w.length)) w.pulses)
    ++ "_" ++ takePrefix 7 (WaveformSignature.stable_hash w)

/-- Concatenation of a list of strings (definitional cons/nil equations). -/
def concatAll : List String → String
  | [] => ""
  | s :: rest => s ++ concatAll rest

/-- The candidate field parts of a field table (non-`None` entries, rendered,
in table order). -/
def partsOf (fields : List (String × Option ℚ × ℚ × ℕ)) : List String :=
  fields.filterMap fun f =>
    match f.2.1 with
    | none => none
    | some x => some (fieldPart f.1 f.2.2.1 f.2.2.2 x)

/-- The candidate field parts of one pulse. -/
def pulseParts (p : PulseSignature ℚ) : List String :=
  partsOf (pulseFieldTable p)

/-- The claimed truncation behaviour (second definition, following the words
of the claim): the budget break happens at a PULSE boundary — a pulse
contributes either its complete name-and-field block or nothing, and the
first pulse whose whole block would exceed the 56-character budget stops the
loop. -/
def pulseBlock (p : PulseSignature ℚ) : String :=
  "_" ++ p.pulse.getD "" ++ concatAll (pulseParts p)

/-- Pulse-boundary variant of the outer loop (claim wording). -/
def addPulsesPulsewise : String → List (PulseSignature ℚ) → String
  | r, [] => r
  | r, p :: ps =>
    let b := pulseBlock p
    if 56 < (r ++ b).length then r
    else addPulsesPulsewise (r ++ b) ps

/-- `signature_string` as the claim describes it: truncation at pulse
boundaries. -/
def signature_string_pulsewise (w : WaveformSignature ℚ) : String :=
  string_sanitize (addPulsesPulsewise ("p_" ++ zfill 4 (toString w.length)) w.pulses)
    ++ "_" ++ takePrefix 7 (WaveformSignature.stable_hash w)

/-- Greedy field-boundary consumption: keep whole parts while the running
length stays within 56; report whether a part was refused. -/
def takeFit : ℕ → List String → List String × Bool
  | _, [] => ([], false)
  | len, s :: rest =>
    if 56 < len + s.length then ([], true)
    else
      let (ks, st) := takeFit (len + s.length) rest
      (s :: ks, st)

/-- Field-boundary formulation of the outer loop: each pulse appends its name
and then the greedy prefix of its field parts; a refused part ends the whole
loop. -/
def sigBodyFieldwise : String → List (PulseSignature ℚ) → String
  | r, [] => r
  | r, p :: ps =>
    let r1 := r ++ "_" ++ p.pulse.getD ""
    let (ks, stopped) := takeFit r1.length (pulseParts p)
    let r2 := r1 ++ concatAll ks
    if stopped then r2 else sigBodyFieldwise r2 ps

/-- `signature_string` with truncation described declaratively at FIELD
boundaries (the amended claim). -/
def signature_string_fieldwise (w : WaveformSignature ℚ) : String :=
  string_sanitize (sigBodyFieldwise ("p_" ++ zfill 4 (toString w.length)) w.pulses)
    ++ "_" ++ takePrefix 7 (WaveformSignature.stable_hash w)

lemma takeFit_cons_fit {len : ℕ} {s : String} {rest : List String}
    (h : ¬ 56 < len + s.length) :
    takeFit len (s :: rest)
      = (s :: (takeFit (len + s.length) rest).1,
         (takeFit (len + s.length) rest).2) := by
  rw [takeFit, if_neg h]

lemma addFields_eq_takeFit (fields : List (String × Option ℚ × ℚ × ℕ))
    : ∀ r : String,
    addFields r fields
      = (r ++ concatAll (takeFit r.length (partsOf fields)).1,
         (takeFit r.length (partsOf fields)).2) := by
  induction fields with
  | nil => intro r; simp [addFields, takeFit, partsOf, concatAll]
  | cons f rest ih =>
    intro r
    obtain ⟨sep, v, scale, fill⟩ := f
    cases v with
    | none => simpa [addFields, partsOf, List.filterMap_cons] using ih r
    | some x =>
      have hparts : partsOf ((sep, some x, scale, fill) :: rest)
          = fieldPart sep scale fill x :: partsOf rest := by
        simp [partsOf, List.filterMap_cons]
      rw [hparts]
      simp only [addFields]
      by_cases hlen : 56 < (r ++ fieldPart sep scale fill x).length
      · rw [if_pos hlen]
        have hlen2 : 56 < r.length + (fieldPart sep scale fill x).length := by
          simpa [String.length_append] using hlen
        simp [takeFit, hlen2, concatAll]
      · rw [if_neg hlen]
        have hlen2 : ¬ 56 < r.length + (fieldPart sep scale fill x).length := by
          simpa [String.length_append] using hlen
        rw [ih (r ++ fieldPart sep scale fill x), takeFit_cons_fit hlen2,
          String.length_append]
        refine Prod.ext ?_ rfl
        show (r ++ fieldPart sep scale fill x) ++ concatAll _ = r ++ concatAll _
        rw [concatAll, String.append_assoc]

lemma addPulses_eq_fieldwise (ps : List (PulseSignature ℚ)) : ∀ r : String,
    addPulses r ps = sigBodyFieldwise r ps := by
  induction ps with
  | nil => intro r; rfl
  | cons p rest ih =>
    intro r
    show (match addFields (r ++ "_" ++ p.pulse.getD "") (pulseFieldTable p) with
      | (r2, true) => r2
      | (r2, false) => addPulses r2 rest) = _
    rw [addFields_eq_takeFit]
    rcases hK : takeFit (r ++ "_" ++ p.pulse.getD "").length
        (partsOf (pulseFieldTable p)) with ⟨ks, st⟩
    have hK2 : takeFit (r ++ "_" ++ p.pulse.getD "").length (pulseParts p)
        = (ks, st) := by rw [pulseParts, hK]
    show _ = (match takeFit (r ++ "_" ++ p.pulse.getD "").length (pulseParts p) with
      | (ks, stopped) =>
        if stopped then (r ++ "_" ++ p.pulse.getD "") ++ concatAll ks
        else sigBodyFieldwise ((r ++ "_" ++ p.pulse.getD "") ++ concatAll ks) rest)
    rw [hK2]
    cases st with
    | true => rfl
    | false =>
      show addPulses _ rest = _
      simp only [if_neg Bool.false_ne_true]
      exact ih _

/-- Claim C9, amended: `signature_string` stops adding per-pulse fields once
the 56-character budget (before the hash suffix) would be exceeded, breaking
at a FIELD boundary — a field part is emitted whole or not at all, but a
pulse whose earlier fields fit keeps them even when a later field of the same
pulse overflows the budget — and always appends an underscore followed by the
first 7 hex characters of the stable hash, which is a deterministic function
of the full structural content. -/
theorem C9_amended_signature_string (w : WaveformSignature ℚ) :
    WaveformSignature.signature_string w = signature_string_fieldwise w
    ∧ WaveformSignature.signature_string w
        = string_sanitize (addPulses ("p_" ++ zfill 4 (toString w.length)) w.pulses)
          ++ "_" ++ takePrefix 7 (WaveformSignature.stable_hash w)
    ∧ (∀ v, waveformEquiv v w →
        WaveformSignature.stable_hash v = WaveformSignature.stable_hash w) := by
  refine ⟨?_, rfl, fun v hv => ?_⟩
  · unfold WaveformSignature.signature_string signature_string_fieldwise
    rw [addPulses_eq_fieldwise]
  · unfold WaveformSignature.stable_hash
    rw [orjsonDumps_congr hv]

/-- Pulse whose rendered field block is 43 characters: over the 56-character
budget the second copy is cut after its `start` field. -/
def cex9Pulse : PulseSignature ℚ :=
  { start := 0, pulse := some "G", length := 300, amplitude := some 5,
    phase := some 2, oscillator_phase := none, oscillator_frequency := none,
    baseband_phase := some 1, channel := some 7, sub_channel := some 3,
    pulse_parameters := [], markers := none }

/-- Two-pulse waveform on which the truncation of `signature_string` cuts the
second pulse in the middle of its field list. -/
def cex9Wave : WaveformSignature ℚ :=
  { length := 100, pulses := [cex9Pulse, cex9Pulse] }

set_option maxRecDepth 100000 in
/-- Claim C9, counterexample: `signature_string` does NOT break at a pulse
boundary.  On `cex9Wave` the second pulse contributes its name and its
`start` field before the budget stops the loop, so the output differs from
the claimed pulse-boundary truncation (which would drop the second pulse
entirely): the emitted body ends in `_G_00`, a partial pulse. -/
theorem C9_counterexample :
    WaveformSignature.signature_string cex9Wave
      ≠ signature_string_pulsewise cex9Wave := by
  with_unfolding_all decide

/-! ### Schedule nodes and event lists
(`case_schedule.py`, `loop_iteration_schedule.py`, `event_type.py`) -/

/-- `EventType` from `laboneq/compiler/common/event_type.py`. -/
inductive EvType where
  | SECTION_START | SECTION_END
  | PLAY_START | PLAY_END
  | ACQUIRE_START | ACQUIRE_END
  | LOOP_STEP_START | LOOP_STEP_BODY_START | LOOP_STEP_END
  | LOOP_ITERATION_END | LOOP_END
  | PARAMETER_SET
  | DELAY_START | DELAY_END
  | RESET_PRECOMPENSATION_FILTERS
  | INITIAL_RESET_HW_OSCILLATOR_PHASE
  | RESET_HW_OSCILLATOR_PHASE | RESET_SW_OSCILLATOR_PHASE
  | SKELETON | RIGHT_ALIGNED_COLLECTOR
  | INCREMENT_OSCILLATOR_PHASE | SET_OSCILLATOR_PHASE
  | SET_OSCILLATOR_FREQUENCY_START | SET_OSCILLATOR_FREQUENCY_END
  | SPECTROSCOPY_END
  | SUBSECTION_START | SUBSECTION_END
  | SECTION_SKELETON | RELATIVE_TIMING
  deriving DecidableEq, Repr

/-- One event dict of the generated event list; only the keys used by the
schedules under verification are modelled, absent keys are `none`. -/
structure Event where
  event_type : EvType
  time : ℤ
  id : Option ℕ := none
  signal : Option String := none
  section_name : Option String := none
  chain_element_id : Option ℕ := none
  state : Option ℤ := none
  play_wave_id : Option String := none
  play_wave_type : Option String := none
  iteration : Option ℕ := none
  num_repeats : Option ℕ := none
  nesting_level : Option ℕ := none
  parameter_id : Option String := none
  value : Option ℚ := none
  shadow : Bool := false
  deriving DecidableEq, Repr

/-- `EmptyBranch` from `case_schedule.py` (a `CaseSchedule`, hence a
`SectionSchedule`): the branch of a match/case with no operations.  Only the
fields read by `generate_event_list` are modelled; `length` is the
grid-resolved length fixed by timing resolution. -/
structure EmptyBranch where
  sectionName : String
  state : ℤ
  signals : List String
  length : ℤ
  deriving DecidableEq, Repr

/-- Modelled from the spec: `SectionSchedule.generate_event_list` (base class,
not under `src/`) for a section without children produces exactly the
bracketing `SECTION_START`/`SECTION_END` pair (the `EmptyBranch` code asserts
this shape), with ids drawn from the shared allocator;
`CaseSchedule.generate_event_list` (in `src/`) then stores the branch `state`
on the `SECTION_START` event. -/
def caseStartEnd (eb : EmptyBranch) (start : ℤ) (nextId : ℕ) :
    (Event × Event) × ℕ :=
  (({ event_type := EvType.SECTION_START, time := start, id := some nextId,
      section_name := some eb.sectionName, state := some eb.state,
      chain_element_id := some nextId },
    { event_type := EvType.SECTION_END, time := start + eb.length,
      id := some (nextId + 1), section_name := some eb.sectionName,
      chain_element_id := some nextId }), nextId + 2)

/-- The `DELAY_START` event of the per-signal placeholder pair emitted by
`EmptyBranch.generate_event_list`. -/
def mkDelayStart (eb : EmptyBranch) (start : ℤ) (sig : String) (c : ℕ) : Event :=
  { event_type := EvType.DELAY_START, time := start, id := some c,
    signal := some sig, chain_element_id := some c,
    section_name := some eb.sectionName,
    play_wave_id := some "EMPTY_MATCH_CASE_DELAY",
    play_wave_type := some "EMPTY_CASE" }

/-- The matching `DELAY_END` event (same `chain_element_id`, end time). -/
def mkDelayEnd (eb : EmptyBranch) (start : ℤ) (sig : String) (c : ℕ) : Event :=
  { event_type := EvType.DELAY_END, time := start + eb.length,
    id := some (c + 1), signal := some sig, chain_element_id := some c,
    section_name := some eb.sectionName,
    play_wave_id := some "EMPTY_MATCH_CASE_DELAY",
    play_wave_type := some "EMPTY_CASE" }

/-- The per-signal delay loop of `EmptyBranch.generate_event_list`: while more
than 2 events of budget remain, consume 2 and emit the pair for the next
signal; ids are drawn from the shared counter (`DELAY_START` id doubles as
`chain_element_id`). -/
def delayEvents (eb : EmptyBranch) (start : ℤ) :
    List String → ℤ → ℕ → List Event × ℕ
  | [], _, n => ([], n)
  | sig :: rest, maxEv, n =>
    if maxEv ≤ 2 then ([], n)
    else
      let (more, n2) := delayEvents eb start rest (maxEv - 2) (n + 2)
      (mkDelayStart eb start sig n :: mkDelayEnd eb start sig n :: more, n2)

/-- `EmptyBranch.generate_event_list` from `case_schedule.py`: the super call
yields exactly the section pair; if `max_events <= 2` only that pair is
returned, otherwise a `DELAY_START`/`DELAY_END` placeholder pair is emitted
per signal while the budget (not charged for the section pair itself)
permits. -/
def EmptyBranch.generate_event_list (eb : EmptyBranch) (start : ℤ)
    (max_events : ℤ) (nextId : ℕ) : List Event × ℕ :=
  let ss := (caseStartEnd eb start nextId).1.1
  let se := (caseStartEnd eb start nextId).1.2
  let n1 := (caseStartEnd eb start nextId).2
  if max_events ≤ 2 then ([ss, se], n1)
  else
    (ss :: ((delayEvents eb start eb.signals max_events n1).1 ++ [se]),
     (delayEvents eb start eb.signals max_events n1).2)

/-- One near-time or sweep parameter with its per-iteration values
(`sweep_parameters` entries of `LoopIterationSchedule`). -/
structure SweepParam where
  id : String
  values : List ℚ
  deriving DecidableEq, Repr

/-- `LoopIterationSchedule` from `loop_iteration_schedule.py`.  The recursive
expansion of the children is performed by `SectionSchedule.children_events`
(base class, not under `src/`); modelled from the spec as an abstract
generator field receiving the start time, the remaining event budget and the
id allocator. -/
structure LoopIterationSchedule where
  sectionName : String
  length : ℤ
  iteration : ℕ
  sweep_parameters : List SweepParam
  num_repeats : ℕ
  shadow : Bool
  childrenGen : ℤ → ℤ → ℕ → List Event × ℕ

/-- The `PARAMETER_SET` event of one swept parameter at one iteration. -/
def paramSetEvent (sectionName : String) (iteration : ℕ) (start : ℤ)
    (p : SweepParam) : Event :=
  { event_type := EvType.PARAMETER_SET, time := start,
    section_name := some sectionName, parameter_id := some p.id,
    iteration := some iteration, value := some (p.values.getD iteration 0) }

/-- Tag an event as shadow (`e["shadow"] = True`). -/
def setShadow (e : Event) : Event :=
  { e with shadow := true }

/-- The reduced budget handed to the children: the parent reserves one event
per sweep parameter, one extra for iteration 0, and three for
`LOOP_STEP_START`, `LOOP_STEP_END` and `LOOP_ITERATION_END`. -/
def loopBudget (l : LoopIterationSchedule) (max_events : ℤ) : ℤ :=
  max_events - l.sweep_parameters.length
    - (if l.iteration = 0 then 1 else 0) - 3

/-- `LoopIterationSchedule.generate_event_list` from
`loop_iteration_schedule.py`: reserves budget for the sweep parameters, the
`LOOP_STEP_START`/`LOOP_STEP_END` pair, the iteration-0-only
`LOOP_ITERATION_END` (plus one), expands the children with the reduced
budget, and emits the events in order; with `shadow` set every event is
tagged. -/
def loopCoreEvents (l : LoopIterationSchedule) (start max_events : ℤ)
    (nextId : ℕ) : List Event :=
  { event_type := EvType.LOOP_STEP_START, time := start,
    section_name := some l.sectionName, iteration := some l.iteration,
    num_repeats := some l.num_repeats, nesting_level := some 0 }
  :: (l.sweep_parameters.map (paramSetEvent l.sectionName l.iteration start)
  ++ (l.childrenGen start (loopBudget l max_events) nextId).1
  ++ [{ event_type := EvType.LOOP_STEP_END, time := start + l.length,
        section_name := some l.sectionName, iteration := some l.iteration,
        num_repeats := some l.num_repeats, nesting_level := some 0 }]
  ++ (if l.iteration = 0 then
        [{ event_type := EvType.LOOP_ITERATION_END, time := start + l.length,
           section_name := some l.sectionName, iteration := some l.iteration,
           num_repeats := some l.num_repeats, nesting_level := some 0 }]
      else []))

/-- The shadow tagging and the returned pair of
`LoopIterationSchedule.generate_event_list`. -/
def LoopIterationSchedule.generate_event_list (l : LoopIterationSchedule)
    (start : ℤ) (max_events : ℤ) (nextId : ℕ) : List Event × ℕ :=
  (if l.shadow then (loopCoreEvents l start max_events nextId).map setShadow
   else loopCoreEvents l start max_events nextId,
   (l.childrenGen start (loopBudget l max_events) nextId).2)

/-- Is the event a `*_START` event of the kinds emitted by the schedules
under verification? -/
def isStartEv (e : Event) : Bool :=
  match e.event_type with
  | EvType.SECTION_START => true
  | EvType.DELAY_START => true
  | EvType.LOOP_STEP_START => true
  | _ => false

/-- Does `e` close the start event `s`: the corresponding `*_END` type with
the same signal and section/loop/delay identity (section name, and for delay
pairs the signal and chain element, for loop steps the iteration)? -/
def matchesEnd (s e : Event) : Bool :=
  match s.event_type, e.event_type with
  | EvType.SECTION_START, EvType.SECTION_END =>
      s.section_name == e.section_name
  | EvType.DELAY_START, EvType.DELAY_END =>
      s.signal == e.signal && s.chain_element_id == e.chain_element_id
        && s.section_name == e.section_name
  | EvType.LOOP_STEP_START, EvType.LOOP_STEP_END =>
      s.section_name == e.section_name && s.iteration == e.iteration
  | _, _ => false

/-- The event pairing invariant: every `*_START` event in the list has
exactly one later matching `*_END` event. -/
def pairedEvents : List Event → Prop
  | [] => True
  | e :: rest =>
      (isStartEv e = true → rest.countP (matchesEnd e) = 1) ∧ pairedEvents rest

lemma delayEvents_cons (eb : EmptyBranch) (start : ℤ) (sig : String)
    (rest : List String) (maxEv : ℤ) (n : ℕ) :
    delayEvents eb start (sig :: rest) maxEv n
      = if maxEv ≤ 2 then ([], n)
        else (mkDelayStart eb start sig n :: mkDelayEnd eb start sig n ::
                (delayEvents eb start rest (maxEv - 2) (n + 2)).1,
              (delayEvents eb start rest (maxEv - 2) (n + 2)).2) := by
  rw [delayEvents]

lemma delayEvents_mem (eb : EmptyBranch) (start : ℤ) :
    ∀ (sigs : List String) (maxEv : ℤ) (n : ℕ) (e : Event),
    e ∈ (delayEvents eb start sigs maxEv n).1 →
    (e.event_type = EvType.DELAY_START ∨ e.event_type = EvType.DELAY_END)
      ∧ ∃ c, e.chain_element_id = some c ∧ n ≤ c := by
  intro sigs
  induction sigs with
  | nil => intro maxEv n e he; simp [delayEvents] at he
  | cons sig rest ih =>
    intro maxEv n e he
    rw [delayEvents_cons] at he
    by_cases hm : maxEv ≤ 2
    · rw [if_pos hm] at he; simp at he
    · rw [if_neg hm] at he
      simp only [List.mem_cons] at he
      rcases he with he | he | he
      · subst he
        exact ⟨Or.inl rfl, n, rfl, le_refl n⟩
      · subst he
        exact ⟨Or.inr rfl, n, rfl, le_refl n⟩
      · obtain ⟨ht, c, hc, hnc⟩ := ih (maxEv - 2) (n + 2) e he
        exact ⟨ht, c, hc, by omega⟩

lemma matchesEnd_ds_chain_ne {eb : EmptyBranch} {start : ℤ} {sig : String}
    {n : ℕ} {e : Event} {c : ℕ} (hc : e.chain_element_id = some c)
    (hne : n ≠ c) : matchesEnd (mkDelayStart eb start sig n) e = false := by
  cases he : e.event_type <;>
    simp [matchesEnd, mkDelayStart, he, hc, hne]

lemma delayEvents_paired (eb : EmptyBranch) (start : ℤ) (tail : List Event)
    (htail : ∀ e ∈ tail, e.event_type ≠ EvType.DELAY_END)
    (htailp : pairedEvents tail) :
    ∀ (sigs : List String) (maxEv : ℤ) (n : ℕ),
    pairedEvents ((delayEvents eb start sigs maxEv n).1 ++ tail) := by
  intro sigs
  induction sigs with
  | nil => intro maxEv n; simpa [delayEvents] using htailp
  | cons sig rest ih =>
    intro maxEv n
    rw [delayEvents_cons]
    by_cases hm : maxEv ≤ 2
    · rw [if_pos hm]; simpa using htailp
    · rw [if_neg hm]
      rw [List.cons_append, List.cons_append]
      refine ⟨?_, ?_, ?_⟩
      swap
      · intro hstart
        exact absurd hstart (by simp [isStartEv, mkDelayEnd])
      swap
      · exact ih (maxEv - 2) (n + 2)
      · intro _
        rw [List.countP_cons]
        have hde : matchesEnd (mkDelayStart eb start sig n)
            (mkDelayEnd eb start sig n) = true := by
          simp [matchesEnd, mkDelayStart, mkDelayEnd]
        rw [List.countP_append]
        have hrec : ((delayEvents eb start rest (maxEv - 2) (n + 2)).1).countP
            (matchesEnd (mkDelayStart eb start sig n)) = 0 := by
          rw [List.countP_eq_zero]
          intro e he
          obtain ⟨_, c, hc, hnc⟩ := delayEvents_mem eb start rest _ _ e he
          have hfalse := @matchesEnd_ds_chain_ne eb start sig n e c hc
            (show n ≠ c by omega)
          simp [hfalse]
        have htl : tail.countP (matchesEnd (mkDelayStart eb start sig n)) = 0 := by
          rw [List.countP_eq_zero]
          intro e he
          have : matchesEnd (mkDelayStart eb start sig n) e = false := by
            unfold matchesEnd mkDelayStart
            rcases hty : e.event_type <;> first | rfl | exact absurd hty (htail e he)
          simp [this]
        rw [hrec, htl, hde]
        simp

/-- The pairing half of the amended claim C4 for `EmptyBranch`. -/
lemma emptyBranch_paired (eb : EmptyBranch) (start max_events : ℤ) (n : ℕ) :
    pairedEvents (eb.generate_event_list start max_events n).1 := by
  unfold EmptyBranch.generate_event_list caseStartEnd
  by_cases hm : max_events ≤ 2
  · rw [if_pos hm]
    exact ⟨fun _ => by simp [matchesEnd], fun h => by simp [isStartEv] at h, trivial⟩
  · rw [if_neg hm]
    refine ⟨?_, ?_⟩
    · intro _
      rw [List.countP_append, List.countP_eq_zero.mpr, Nat.zero_add]
      · simp [matchesEnd]
      · intro e he
        obtain ⟨ht, _, _, _⟩ := delayEvents_mem eb start eb.signals _ _ e he
        have : matchesEnd
            { event_type := EvType.SECTION_START, time := start,
              id := some n, section_name := some eb.sectionName,
              state := some eb.state, chain_element_id := some n } e = false := by
          unfold matchesEnd
          rcases ht with ht | ht <;> simp [ht]
        simp [this]
    · refine delayEvents_paired eb start _ ?_ ?_ eb.signals max_events (n + 2)
      · intro e he
        simp at he
        subst he
        simp
      · exact ⟨fun h => by simp [isStartEv] at h, trivial⟩

/-- The budget half of the amended claim C4 for `EmptyBranch`: the delay loop
consumes 2 budget per pair, so for an even budget of at least 2 the overall
list (section pair included) stays within `max_events`. -/
lemma delayEvents_length (eb : EmptyBranch) (start : ℤ) :
    ∀ (sigs : List String) (maxEv : ℤ) (n : ℕ), Even maxEv →
    (((delayEvents eb start sigs maxEv n).1.length : ℤ)) ≤ max 0 (maxEv - 2) := by
  intro sigs
  induction sigs with
  | nil =>
    intro maxEv n _
    simp [delayEvents]
  | cons sig rest ih =>
    intro maxEv n hev
    rw [delayEvents_cons]
    by_cases hm : maxEv ≤ 2
    · rw [if_pos hm]
      simp
    · rw [if_neg hm]
      have h4 : 4 ≤ maxEv := by
        rcases hev with ⟨k, hk⟩
        omega
      have := ih (maxEv - 2) (n + 2) (by
        rcases hev with ⟨k, hk⟩
        exact ⟨k - 1, by omega⟩)
      simp only [List.length_cons]
      push_cast
      have hmax : max (0 : ℤ) (maxEv - 2 - 2) = maxEv - 4 := by omega
      rw [hmax] at this
      have hmax2 : max (0 : ℤ) (maxEv - 2) = maxEv - 2 := by omega
      rw [hmax2]
      omega

lemma emptyBranch_length (eb : EmptyBranch) (start max_events : ℤ) (n : ℕ)
    (hev : Even max_events) (h2 : 2 ≤ max_events) :
    ((eb.generate_event_list start max_events n).1.length : ℤ) ≤ max_events := by
  unfold EmptyBranch.generate_event_list caseStartEnd
  by_cases hm : max_events ≤ 2
  · rw [if_pos hm]; simpa using h2
  · rw [if_neg hm]
    have := delayEvents_length eb start eb.signals max_events (n + 2) hev
    have hmax : max (0 : ℤ) (max_events - 2) = max_events - 2 := by omega
    rw [hmax] at this
    simp only [List.length_cons, List.length_append, List.length_singleton,
      List.length_nil]
    push_cast
    omega

lemma pairedEvents_append_of {A B : List Event} (hA : pairedEvents A)
    (hB : pairedEvents B)
    (hcross : ∀ a ∈ A, isStartEv a = true → B.countP (matchesEnd a) = 0) :
    pairedEvents (A ++ B) := by
  induction A with
  | nil => simpa using hB
  | cons a A2 ih =>
    rw [List.cons_append]
    refine ⟨?_, ih hA.2 (fun x hx hs => hcross x (List.mem_cons_of_mem a hx) hs)⟩
    intro hs
    rw [List.countP_append, hA.1 hs, hcross a (List.mem_cons_self a A2) hs]

lemma pairedEvents_of_no_starts {A : List Event}
    (h : ∀ a ∈ A, isStartEv a = false) : pairedEvents A := by
  induction A with
  | nil => trivial
  | cons a A2 ih =>
    refine ⟨?_, ih (fun x hx => h x (List.mem_cons_of_mem a hx))⟩
    intro hs
    rw [h a (List.mem_cons_self a A2)] at hs
    cases hs

lemma isStartEv_setShadow (e : Event) : isStartEv (setShadow e) = isStartEv e := rfl

lemma matchesEnd_setShadow (a b : Event) :
    matchesEnd (setShadow a) (setShadow b) = matchesEnd a b := rfl

lemma pairedEvents_map_setShadow {A : List Event} (h : pairedEvents A) :
    pairedEvents (A.map setShadow) := by
  induction A with
  | nil => trivial
  | cons a A2 ih =>
    rw [List.map_cons]
    refine ⟨?_, ih h.2⟩
    intro hs
    rw [isStartEv_setShadow] at hs
    rw [List.countP_map]
    have hpred : ((matchesEnd (setShadow a)) ∘ setShadow) = matchesEnd a := by
      funext x
      exact matchesEnd_setShadow a x
    rw [hpred, h.1 hs]

lemma matchesEnd_false_of_not_end {s e : Event}
    (h1 : e.event_type ≠ EvType.SECTION_END)
    (h2 : e.event_type ≠ EvType.DELAY_END)
    (h3 : e.event_type ≠ EvType.LOOP_STEP_END) :
    matchesEnd s e = false := by
  unfold matchesEnd
  split <;> simp_all

lemma matchesEnd_false_of_section_ne {s e : Event}
    (hne : s.section_name ≠ e.section_name) :
    matchesEnd s e = false := by
  have hbeq : (s.section_name == e.section_name) = false := by
    rw [beq_eq_false_iff_ne]
    exact hne
  unfold matchesEnd
  split <;> simp_all

/-- The pairing half of the amended claim C4 for `LoopIterationSchedule`:
provided the children events are themselves paired and belong to other
sections, the assembled iteration event list is paired. -/
lemma loopCore_paired (l : LoopIterationSchedule) (start max_events : ℤ)
    (n : ℕ)
    (hcp : pairedEvents (l.childrenGen start (loopBudget l max_events) n).1)
    (hcs : ∀ e ∈ (l.childrenGen start (loopBudget l max_events) n).1,
      e.section_name ≠ some l.sectionName) :
    pairedEvents (loopCoreEvents l start max_events n) := by
  unfold loopCoreEvents
  set children := (l.childrenGen start (loopBudget l max_events) n).1 with hchildren
  set lss : Event :=
    { event_type := EvType.LOOP_STEP_START, time := start,
      section_name := some l.sectionName, iteration := some l.iteration,
      num_repeats := some l.num_repeats, nesting_level := some 0 } with hlss
  set lse : Event :=
    { event_type := EvType.LOOP_STEP_END, time := start + l.length,
      section_name := some l.sectionName, iteration := some l.iteration,
      num_repeats := some l.num_repeats, nesting_level := some 0 } with hlse
  set lie : List Event :=
    (if l.iteration = 0 then
      [{ event_type := EvType.LOOP_ITERATION_END, time := start + l.length,
         section_name := some l.sectionName, iteration := some l.iteration,
         num_repeats := some l.num_repeats, nesting_level := some 0 }]
    else []) with hlie
  have hlie_type : ∀ e ∈ lie, e.event_type = EvType.LOOP_ITERATION_END := by
    intro e he
    rw [hlie] at he
    by_cases h0 : l.iteration = 0
    · rw [if_pos h0] at he
      simp at he
      rw [he]
    · rw [if_neg h0] at he
      simp at he
  refine ⟨?_, ?_⟩
  · intro _
    rw [List.countP_append, List.countP_append, List.countP_append]
    have hp : (l.sweep_parameters.map
        (paramSetEvent l.sectionName l.iteration start)).countP
          (matchesEnd lss) = 0 := by
      rw [List.countP_eq_zero]
      intro e he
      rw [List.mem_map] at he
      obtain ⟨p, _, hp⟩ := he
      rw [← hp]
      simp [matchesEnd_false_of_not_end, paramSetEvent]
    have hch0 : children.countP (matchesEnd lss) = 0 := by
      rw [List.countP_eq_zero]
      intro e he
      have := @matchesEnd_false_of_section_ne lss e
        (by rw [hlss]; exact fun h => hcs e he h.symm)
      simp [this]
    have hlse1 : ([lse]).countP (matchesEnd lss) = 1 := by
      simp [matchesEnd, hlss, hlse]
    have hlie0 : lie.countP (matchesEnd lss) = 0 := by
      rw [List.countP_eq_zero]
      intro e he
      have := @matchesEnd_false_of_not_end lss e
        (by rw [hlie_type e he]; intro h; cases h)
        (by rw [hlie_type e he]; intro h; cases h)
        (by rw [hlie_type e he]; intro h; cases h)
      simp [this]
    rw [hp, hch0, hlse1, hlie0]
  · rw [List.append_assoc, List.append_assoc]
    refine pairedEvents_append_of (pairedEvents_of_no_starts ?_) ?_ ?_
    · intro a ha
      rw [List.mem_map] at ha
      obtain ⟨p, _, hp⟩ := ha
      rw [← hp]
      rfl
    · refine pairedEvents_append_of hcp (pairedEvents_of_no_starts ?_) ?_
      · intro a ha
        rw [List.cons_append, List.mem_cons] at ha
        rcases ha with ha | ha
        · rw [ha, hlse]; rfl
        · rw [isStartEv]
          rw [hlie_type a ha]
      · intro a ha _
        rw [List.countP_eq_zero]
        intro e he
        rw [List.cons_append, List.mem_cons] at he
        rcases he with he | he
        · have := @matchesEnd_false_of_section_ne a e
            (by rw [he, hlse]; exact fun h => hcs a ha h)
          simp [this]
        · have := @matchesEnd_false_of_not_end a e
            (by rw [hlie_type e he]; intro h; cases h)
            (by rw [hlie_type e he]; intro h; cases h)
            (by rw [hlie_type e he]; intro h; cases h)
          simp [this]
    · intro a ha hstart
      rw [List.mem_map] at ha
      obtain ⟨p, _, hp⟩ := ha
      have hfalse : isStartEv a = false := by rw [← hp]; rfl
      rw [hfalse] at hstart
      cases hstart

/-- The pairing half of the amended claim C4 for `LoopIterationSchedule`:
provided the children events are themselves paired and belong to other
sections, the assembled iteration event list is paired. -/
lemma loopIteration_paired (l : LoopIterationSchedule) (start max_events : ℤ)
    (n : ℕ)
    (hcp : pairedEvents (l.childrenGen start (loopBudget l max_events) n).1)
    (hcs : ∀ e ∈ (l.childrenGen start (loopBudget l max_events) n).1,
      e.section_name ≠ some l.sectionName) :
    pairedEvents (l.generate_event_list start max_events n).1 := by
  have hcore := loopCore_paired l start max_events n hcp hcs
  unfold LoopIterationSchedule.generate_event_list
  by_cases hsh : l.shadow
  · rw [if_pos hsh]
    exact pairedEvents_map_setShadow hcore
  · rw [if_neg hsh]
    exact hcore

/-- The budget half of the amended claim C4 for `LoopIterationSchedule`:
when the children respect the reduced budget, the whole list respects
`max_events`. -/
lemma loopIteration_length (l : LoopIterationSchedule) (start max_events : ℤ)
    (n : ℕ)
    (hch : ((l.childrenGen start (loopBudget l max_events) n).1.length : ℤ)
      ≤ loopBudget l max_events) :
    ((l.generate_event_list start max_events n).1.length : ℤ) ≤ max_events := by
  unfold LoopIterationSchedule.generate_event_list
  have hlen : (l.generate_event_list start max_events n).1.length
      = (loopCoreEvents l start max_events n).length := by
    unfold LoopIterationSchedule.generate_event_list
    by_cases hsh : l.shadow
    · rw [if_pos hsh]
      show (List.map setShadow (loopCoreEvents l start max_events n)).length = _
      rw [List.length_map]
    · rw [if_neg hsh]
  show ((if l.shadow = true then _ else _ : List Event).length : ℤ) ≤ max_events
  have hlen2 : ((if l.shadow = true
      then (loopCoreEvents l start max_events n).map setShadow
      else loopCoreEvents l start max_events n).length : ℤ)
      = ((loopCoreEvents l start max_events n).length : ℤ) := by
    by_cases hsh : l.shadow
    · rw [if_pos hsh, List.length_map]
    · rw [if_neg hsh]
  rw [hlen2]
  unfold loopCoreEvents
  simp only [List.length_cons, List.length_append, List.length_map,
    List.length_singleton, List.length_nil]
  by_cases h0 : l.iteration = 0
  · rw [if_pos h0]
    have hB : loopBudget l max_events
        = max_events - l.sweep_parameters.length - 1 - 3 := by
      unfold loopBudget
      rw [if_pos h0]
    simp only [List.length_singleton]
    push_cast
    push_cast at hch hB
    omega
  · rw [if_neg h0]
    have hB : loopBudget l max_events
        = max_events - l.sweep_parameters.length - 3 := by
      unfold loopBudget
      rw [if_neg h0]
      ring
    simp only [List.length_nil]
    push_cast
    push_cast at hch hB
    omega

/-- Number of events of a given type in an event list. -/
def countType (t : EvType) (evs : List Event) : ℕ :=
  evs.countP (fun e => e.event_type == t)

lemma countType_map_setShadow (t : EvType) (L : List Event) :
    countType t (L.map setShadow) = countType t L := by
  unfold countType
  rw [List.countP_map]
  rfl

lemma countType_generate (l : LoopIterationSchedule) (start m : ℤ) (n : ℕ)
    (t : EvType) :
    countType t (l.generate_event_list start m n).1
      = countType t (loopCoreEvents l start m n) := by
  unfold LoopIterationSchedule.generate_event_list
  by_cases hsh : l.shadow
  · rw [if_pos hsh]
    exact countType_map_setShadow t _
  · rw [if_neg hsh]

lemma countType_params (t : EvType) (ht : t ≠ EvType.PARAMETER_SET)
    (sectionName : String) (iteration : ℕ) (start : ℤ)
    (params : List SweepParam) :
    countType t (params.map (paramSetEvent sectionName iteration start)) = 0 := by
  unfold countType
  rw [List.countP_eq_zero]
  intro e he
  rw [List.mem_map] at he
  obtain ⟨p, _, hp⟩ := he
  rw [← hp]
  simp [paramSetEvent]
  exact fun h => ht h.symm

lemma countType_core (l : LoopIterationSchedule) (start m : ℤ) (n : ℕ)
    (t : EvType)
    (hc : countType t (l.childrenGen start (loopBudget l m) n).1 = 0)
    (ht : t ≠ EvType.PARAMETER_SET) :
    countType t (loopCoreEvents l start m n)
      = (if t = EvType.LOOP_STEP_START then 1 else 0)
        + (if t = EvType.LOOP_STEP_END then 1 else 0)
        + (if t = EvType.LOOP_ITERATION_END ∧ l.iteration = 0 then 1 else 0) := by
  unfold loopCoreEvents countType
  have hp0 : List.countP (fun e => e.event_type == t)
      (List.map (paramSetEvent l.sectionName l.iteration start)
        l.sweep_parameters) = 0 :=
    countType_params t ht l.sectionName l.iteration start l.sweep_parameters
  have hc0 : List.countP (fun e => e.event_type == t)
      (l.childrenGen start (loopBudget l m) n).1 = 0 := hc
  rw [List.countP_cons, List.countP_append, List.countP_append,
    List.countP_append, hp0, hc0]
  by_cases h0 : l.iteration = 0
  · rw [if_pos h0]
    by_cases h1 : t = EvType.LOOP_STEP_START <;>
      by_cases h2 : t = EvType.LOOP_STEP_END <;>
        by_cases h3 : t = EvType.LOOP_ITERATION_END <;>
          (simp_all [List.countP_cons]; try aesop)
  · rw [if_neg h0]
    by_cases h1 : t = EvType.LOOP_STEP_START <;>
      by_cases h2 : t = EvType.LOOP_STEP_END <;>
        by_cases h3 : t = EvType.LOOP_ITERATION_END <;>
          (simp_all [List.countP_cons]; try aesop)

lemma filterParams_core (l : LoopIterationSchedule) (start m : ℤ) (n : ℕ)
    (hc : ∀ e ∈ (l.childrenGen start (loopBudget l m) n).1,
      e.event_type ≠ EvType.PARAMETER_SET) :
    (loopCoreEvents l start m n).filter
        (fun e => e.event_type == EvType.PARAMETER_SET)
      = l.sweep_parameters.map (paramSetEvent l.sectionName l.iteration start) := by
  unfold loopCoreEvents
  rw [List.filter_cons, List.filter_append, List.filter_append,
    List.filter_append]
  have h1 : (l.sweep_parameters.map
      (paramSetEvent l.sectionName l.iteration start)).filter
        (fun e => e.event_type == EvType.PARAMETER_SET)
      = l.sweep_parameters.map (paramSetEvent l.sectionName l.iteration start) := by
    rw [List.filter_eq_self]
    intro e he
    rw [List.mem_map] at he
    obtain ⟨p, _, hp⟩ := he
    rw [← hp]
    rfl
  have h2 : ((l.childrenGen start (loopBudget l m) n).1).filter
      (fun e => e.event_type == EvType.PARAMETER_SET) = [] := by
    rw [List.filter_eq_nil_iff]
    intro e he
    simpa using hc e he
  have h3 : ∀ (e : Event), e.event_type ≠ EvType.PARAMETER_SET →
      (([e] : List Event)).filter (fun x => x.event_type == EvType.PARAMETER_SET)
        = [] := by
    intro e he
    rw [List.filter_eq_nil_iff]
    intro x hx
    rw [List.mem_singleton] at hx
    rw [hx]
    simpa using he
  rw [h1, h2, h3 _ (by intro h; cases h)]
  have h4 : (if l.iteration = 0 then
      [{ event_type := EvType.LOOP_ITERATION_END, time := start + l.length,
         section_name := some l.sectionName, iteration := some l.iteration,
         num_repeats := some l.num_repeats,
         nesting_level := some 0 : Event }]
    else []).filter (fun x => x.event_type == EvType.PARAMETER_SET) = [] := by
    by_cases h0 : l.iteration = 0
    · rw [if_pos h0]
      exact h3 _ (by intro h; cases h)
    · rw [if_neg h0]
      rfl
  rw [h4]
  rw [if_neg (by simp)]
  simp

lemma filterParams_generate (l : LoopIterationSchedule) (start m : ℤ) (n : ℕ)
    (hc : ∀ e ∈ (l.childrenGen start (loopBudget l m) n).1,
      e.event_type ≠ EvType.PARAMETER_SET) :
    (l.generate_event_list start m n).1.filter
        (fun e => e.event_type == EvType.PARAMETER_SET)
      = (if l.shadow then
          (l.sweep_parameters.map
            (paramSetEvent l.sectionName l.iteration start)).map setShadow
        else l.sweep_parameters.map
          (paramSetEvent l.sectionName l.iteration start)) := by
  unfold LoopIterationSchedule.generate_event_list
  by_cases hsh : l.shadow
  · rw [if_pos hsh, if_pos hsh]
    rw [List.filter_map]
    have hpred : ((fun e : Event => e.event_type == EvType.PARAMETER_SET)
        ∘ setShadow) = fun e : Event => e.event_type == EvType.PARAMETER_SET := rfl
    rw [hpred, filterParams_core l start m n hc]
  · rw [if_neg hsh, if_neg hsh]
    exact filterParams_core l start m n hc

lemma sum_range_indicator : ∀ N : ℕ, 0 < N →
    ((List.range N).map (fun i => if i = 0 then 1 else 0)).sum = 1 := by
  intro N
  induction N with
  | zero => intro h; cases h
  | succ k ih =>
    intro _
    rw [List.range_succ, List.map_append, List.sum_append]
    by_cases hk : k = 0
    · subst hk
      rfl
    · rw [ih (Nat.pos_of_ne_zero hk)]
      simp [hk]

/-- Two-signal empty branch used by the budget counterexamples. -/
def cexBranch : EmptyBranch :=
  { sectionName := "case_empty", state := 0, signals := ["sig_a", "sig_b"],
    length := 16 }

/-- Claim C4, counterexample: the event count is NOT always bounded by
`max_events`.  `EmptyBranch.generate_event_list` never charges the
bracketing section pair against the budget, so a two-signal branch with
`max_events = 3` emits 4 events. -/
theorem C4_counterexample :
    (cexBranch.generate_event_list 0 3 0).1.length = 4
      ∧ ¬ ((cexBranch.generate_event_list 0 3 0).1.length ≤ 3) := by
  constructor
  · rfl
  · decide

/-- Claim C4, amended: every `*_START` event in a generated event list has
exactly one later matching `*_END` event with the same signal and
section/loop/delay identity (pairs are never split by truncation), and
`len(events) ≤ max_events` holds whenever the budget covers the fixed
overhead: for `EmptyBranch` whenever `max_events` is even and at least 2
(the bracketing section pair is not charged against the budget, so an odd
budget can be exceeded by one), and for `LoopIterationSchedule` whenever the
children respect the reduced budget handed to them (which also requires that
budget to be non-negative); the pairing of a loop iteration moreover assumes
the children are paired and belong to other sections. -/
theorem C4_amended_pairing_and_budget :
    (∀ (eb : EmptyBranch) (start max_events : ℤ) (n : ℕ),
      pairedEvents (eb.generate_event_list start max_events n).1)
    ∧ (∀ (eb : EmptyBranch) (start max_events : ℤ) (n : ℕ),
        Even max_events → 2 ≤ max_events →
        ((eb.generate_event_list start max_events n).1.length : ℤ) ≤ max_events)
    ∧ (∀ (l : LoopIterationSchedule) (start max_events : ℤ) (n : ℕ),
        pairedEvents (l.childrenGen start (loopBudget l max_events) n).1 →
        (∀ e ∈ (l.childrenGen start (loopBudget l max_events) n).1,
          e.section_name ≠ some l.sectionName) →
        pairedEvents (l.generate_event_list start max_events n).1)
    ∧ (∀ (l : LoopIterationSchedule) (start max_events : ℤ) (n : ℕ),
        ((l.childrenGen start (loopBudget l max_events) n).1.length : ℤ)
          ≤ loopBudget l max_events →
        ((l.generate_event_list start max_events n).1.length : ℤ) ≤ max_events) :=
  ⟨emptyBranch_paired, emptyBranch_length, loopIteration_paired,
   loopIteration_length⟩

/-- Children generator producing no events (a leaf iteration body). -/
def emptyChildrenGen : ℤ → ℤ → ℕ → List Event × ℕ := fun _ _ n => ([], n)

/-- Concrete loop iteration schedule used as a witness input. -/
def cexLoop : LoopIterationSchedule :=
  { sectionName := "sweep_it", length := 32, iteration := 0,
    sweep_parameters := [{ id := "amp", values := [1, 2] }],
    num_repeats := 2, shadow := false, childrenGen := emptyChildrenGen }

/-- Witness for the amended claim C4 at concrete schedules. -/
theorem C4_amended_witness :
    Even (6 : ℤ) ∧ (2 : ℤ) ≤ 6
    ∧ pairedEvents (cexBranch.generate_event_list 0 6 0).1
    ∧ ((cexBranch.generate_event_list 0 6 0).1.length : ℤ) ≤ 6
    ∧ pairedEvents (cexLoop.childrenGen 0 (loopBudget cexLoop 10) 0).1
    ∧ (∀ e ∈ (cexLoop.childrenGen 0 (loopBudget cexLoop 10) 0).1,
        e.section_name ≠ some cexLoop.sectionName)
    ∧ ((cexLoop.childrenGen 0 (loopBudget cexLoop 10) 0).1.length : ℤ)
        ≤ loopBudget cexLoop 10
    ∧ pairedEvents (cexLoop.generate_event_list 0 10 0).1
    ∧ ((cexLoop.generate_event_list 0 10 0).1.length : ℤ) ≤ 10 := by
  have hch : (cexLoop.childrenGen 0 (loopBudget cexLoop 10) 0).1 = [] := rfl
  have hp : pairedEvents (cexLoop.childrenGen 0 (loopBudget cexLoop 10) 0).1 := by
    rw [hch]
    trivial
  have hs : ∀ e ∈ (cexLoop.childrenGen 0 (loopBudget cexLoop 10) 0).1,
      e.section_name ≠ some cexLoop.sectionName := by
    rw [hch]
    intro e he
    cases he
  have hlen : ((cexLoop.childrenGen 0 (loopBudget cexLoop 10) 0).1.length : ℤ)
      ≤ loopBudget cexLoop 10 := by
    rw [hch]
    show (0 : ℤ) ≤ loopBudget cexLoop 10
    with_unfolding_all decide
  exact ⟨⟨3, by norm_num⟩, by norm_num,
    C4_amended_pairing_and_budget.1 cexBranch 0 6 0,
    C4_amended_pairing_and_budget.2.1 cexBranch 0 6 0 ⟨3, by norm_num⟩ (by norm_num),
    hp, hs, hlen,
    C4_amended_pairing_and_budget.2.2.1 cexLoop 0 10 0 hp hs,
    C4_amended_pairing_and_budget.2.2.2 cexLoop 0 10 0 hlen⟩

/-- Claim C5, counterexample: with 2 signals and `max_events = 4` the output
is NOT `[SECTION_START, SECTION_END]` but already contains one delay pair
(the section pair is not charged against the budget), and with
`max_events = 6` both signals receive their pair, not just one. -/
theorem C5_counterexample :
    (cexBranch.generate_event_list 0 4 0).1.map (fun e => e.event_type)
        = [EvType.SECTION_START, EvType.DELAY_START, EvType.DELAY_END,
           EvType.SECTION_END]
    ∧ (cexBranch.generate_event_list 0 4 0).1.map (fun e => e.event_type)
        ≠ [EvType.SECTION_START, EvType.SECTION_END]
    ∧ (cexBranch.generate_event_list 0 6 0).1.map (fun e => e.event_type)
        = [EvType.SECTION_START, EvType.DELAY_START, EvType.DELAY_END,
           EvType.DELAY_START, EvType.DELAY_END, EvType.SECTION_END]
    ∧ (cexBranch.generate_event_list 0 6 0).1.map (fun e => e.event_type)
        ≠ [EvType.SECTION_START, EvType.DELAY_START, EvType.DELAY_END,
           EvType.SECTION_END] := by
  refine ⟨rfl, ?_, rfl, ?_⟩ <;> decide

/-- Claim C5, amended: for an `EmptyBranch` owning 2 signals the budget
thresholds sit 2 lower than claimed, because the bracketing section pair is
never charged: `max_events = 2` yields exactly
`[SECTION_START, SECTION_END]`, `max_events = 4` yields the delay pair of the
first signal only, and `max_events = 6` yields the delay pairs of both
signals. -/
theorem C5_amended_budget_scenario :
    (cexBranch.generate_event_list 0 2 0).1.map (fun e => e.event_type)
        = [EvType.SECTION_START, EvType.SECTION_END]
    ∧ (cexBranch.generate_event_list 0 4 0).1.map (fun e => e.event_type)
        = [EvType.SECTION_START, EvType.DELAY_START, EvType.DELAY_END,
           EvType.SECTION_END]
    ∧ (cexBranch.generate_event_list 0 4 0).1.filterMap (fun e => e.signal)
        = ["sig_a", "sig_a"]
    ∧ (cexBranch.generate_event_list 0 6 0).1.map (fun e => e.event_type)
        = [EvType.SECTION_START, EvType.DELAY_START, EvType.DELAY_END,
           EvType.DELAY_START, EvType.DELAY_END, EvType.SECTION_END]
    ∧ (cexBranch.generate_event_list 0 6 0).1.filterMap (fun e => e.signal)
        = ["sig_a", "sig_a", "sig_b", "sig_b"] :=
  ⟨rfl, rfl, rfl, rfl, rfl⟩

/-- Claim C6: across the `N > 1` per-iteration event lists of a loop, exactly
one `LOOP_ITERATION_END` is emitted, and it belongs to iteration 0; every
iteration emits one `LOOP_STEP_START`, one `PARAMETER_SET` per swept
parameter carrying that iteration's sampled value (the parameter value array
indexed by the iteration number), and one `LOOP_STEP_END`.  The children
(expanded by the base class, modelled abstractly) are assumed to contribute
no loop-step/parameter-set/iteration-end events of their own. -/
theorem C6_loop_iteration_zero_uniqueness (l : LoopIterationSchedule) (N : ℕ)
    (hN : 1 < N) (start m : ℤ) (n : ℕ)
    (hc : ∀ (st me : ℤ) (ni : ℕ), ∀ e ∈ (l.childrenGen st me ni).1,
      e.event_type ≠ EvType.LOOP_ITERATION_END
      ∧ e.event_type ≠ EvType.PARAMETER_SET
      ∧ e.event_type ≠ EvType.LOOP_STEP_START
      ∧ e.event_type ≠ EvType.LOOP_STEP_END) :
    ((List.range N).map (fun i =>
      countType EvType.LOOP_ITERATION_END
        (({ l with iteration := i } : LoopIterationSchedule).generate_event_list
          start m n).1)).sum = 1
    ∧ (∀ i : ℕ,
        countType EvType.LOOP_ITERATION_END
          (({ l with iteration := i } : LoopIterationSchedule).generate_event_list
            start m n).1 = if i = 0 then 1 else 0)
    ∧ (∀ i : ℕ,
        countType EvType.LOOP_STEP_START
            (({ l with iteration := i } : LoopIterationSchedule).generate_event_list
              start m n).1 = 1
        ∧ countType EvType.LOOP_STEP_END
            (({ l with iteration := i } : LoopIterationSchedule).generate_event_list
              start m n).1 = 1)
    ∧ (∀ i : ℕ,
        (({ l with iteration := i } : LoopIterationSchedule).generate_event_list
            start m n).1.filter (fun e => e.event_type == EvType.PARAMETER_SET)
          = (if l.shadow then
              (l.sweep_parameters.map (paramSetEvent l.sectionName i start)).map
                setShadow
            else l.sweep_parameters.map (paramSetEvent l.sectionName i start)))
    ∧ (∀ (i : ℕ) (p : SweepParam), p ∈ l.sweep_parameters →
        ∀ hip : i < p.values.length,
        (paramSetEvent l.sectionName i start p).value
          = some (p.values.get ⟨i, hip⟩)) := by
  have hLIE : ∀ i : ℕ,
      countType EvType.LOOP_ITERATION_END
        (({ l with iteration := i } : LoopIterationSchedule).generate_event_list
          start m n).1 = if i = 0 then 1 else 0 := by
    intro i
    rw [countType_generate]
    rw [countType_core _ start m n EvType.LOOP_ITERATION_END ?_ (by intro h; cases h)]
    · simp
    · unfold countType
      rw [List.countP_eq_zero]
      intro e he
      have := (hc start (loopBudget { l with iteration := i } m) n e he).1
      simpa using this
  refine ⟨?_, hLIE, ?_, ?_, ?_⟩
  · rw [List.map_congr_left (fun i _ => hLIE i)]
    exact sum_range_indicator N (by omega)
  · intro i
    constructor
    · rw [countType_generate]
      rw [countType_core _ start m n EvType.LOOP_STEP_START ?_ (by intro h; cases h)]
      · simp
      · unfold countType
        rw [List.countP_eq_zero]
        intro e he
        have := (hc start (loopBudget { l with iteration := i } m) n e he).2.2.1
        simpa using this
    · rw [countType_generate]
      rw [countType_core _ start m n EvType.LOOP_STEP_END ?_ (by intro h; cases h)]
      · simp
      · unfold countType
        rw [List.countP_eq_zero]
        intro e he
        have := (hc start (loopBudget { l with iteration := i } m) n e he).2.2.2
        simpa using this
  · intro i
    exact filterParams_generate { l with iteration := i } start m n
      (fun e he => (hc start (loopBudget { l with iteration := i } m) n e he).2.1)
  · intro i p _ hip
    show some (p.values.getD i 0) = some (p.values.get ⟨i, hip⟩)
    rw [List.getD_eq_getElem p.values 0 hip]
    rfl

/-- Witness for claim C6 at a concrete two-iteration sweep. -/
theorem C6_loop_witness :
    (1 : ℕ) < 2
    ∧ (∀ (st me : ℤ) (ni : ℕ), ∀ e ∈ (cexLoop.childrenGen st me ni).1,
        e.event_type ≠ EvType.LOOP_ITERATION_END
        ∧ e.event_type ≠ EvType.PARAMETER_SET
        ∧ e.event_type ≠ EvType.LOOP_STEP_START
        ∧ e.event_type ≠ EvType.LOOP_STEP_END)
    ∧ ((List.range 2).map (fun i =>
        countType EvType.LOOP_ITERATION_END
          (({ cexLoop with iteration := i } : LoopIterationSchedule).generate_event_list
            0 20 0).1)).sum = 1 := by
  have hc : ∀ (st me : ℤ) (ni : ℕ), ∀ e ∈ (cexLoop.childrenGen st me ni).1,
      e.event_type ≠ EvType.LOOP_ITERATION_END
      ∧ e.event_type ≠ EvType.PARAMETER_SET
      ∧ e.event_type ≠ EvType.LOOP_STEP_START
      ∧ e.event_type ≠ EvType.LOOP_STEP_END := by
    intro st me ni e he
    simp [cexLoop, emptyChildrenGen] at he
  exact ⟨by norm_num, hc,
    (C6_loop_iteration_zero_uniqueness cexLoop 2 (by norm_num) 0 20 0 hc).1⟩

/-! ### Near-time executor (`neartime_execution.py`) -/

/-- Modelled from the spec: `RealtimeCompilerOutput` (not under `src/`); the
executor only reads its `total_execution_time`. -/
structure RtOutput where
  total_execution_time : ℚ
  deriving DecidableEq, Repr

/-- Modelled from the spec: `rt_linker.CombinedRealtimeCompilerOutput` (not
under `src/`); the executor accumulates `total_execution_time` into it. -/
structure CombinedOutput where
  total_execution_time : ℚ
  deriving DecidableEq, Repr

/-- Modelled from the spec: the real-time compiler (`RealtimeCompiler.run`)
together with the `ParameterStore` tracker: `run` maps the near-time
parameter store to a compiled output, and `queries` is the set of parameter
names the compiler actually read from the store (what `tracker.queries()`
reports afterwards). -/
structure RtCompiler where
  run : List (String × ℚ) → RtOutput
  queries : List (String × ℚ) → Finset String

/-- `IterationStep` from `neartime_execution.py`: loop index plus the
near-time parameter values assigned in this frame (a dict, modelled as an
insertion-ordered association list with in-place update). -/
structure IterationStep where
  index : ℕ
  parameter_values : List (String × ℚ)
  deriving DecidableEq, Repr

/-- Python dict update `d[k] = v`: replace in place, else append. -/
def dictSet : List (String × ℚ) → String → ℚ → List (String × ℚ)
  | [], k, v => [(k, v)]
  | (k2, v2) :: rest, k, v =>
    if k2 = k then (k2, v) :: rest else (k2, v2) :: dictSet rest k v

/-- `IterationStack.nt_parameter_values`: merge the per-frame dicts outermost
first, later frames overriding. -/
def ntParameterValues (stack : List IterationStep) : List (String × ℚ) :=
  stack.foldl
    (fun acc step => step.parameter_values.foldl
      (fun a kv => dictSet a kv.1 kv.2) acc)
    []

/-- `IterationStack.set_parameter_value`: write into the innermost frame;
`none` if the stack is empty (Python raises `IndexError`). -/
def setInLast : List IterationStep → String → ℚ → Option (List IterationStep)
  | [], _, _ => none
  | [f], k, v =>
      some [{ f with parameter_values := dictSet f.parameter_values k v }]
  | f :: g :: rest, k, v => (setInLast (g :: rest) k v).map (f :: ·)

/-- `NtCompilerExecutor._frozen_required_parameters`: the frozenset of
`(name, value)` items of the current parameter values restricted to the
required names. -/
def frozenRequired (store : List (String × ℚ)) (req : Finset String) :
    Finset (String × ℚ) :=
  (store.filter (fun kv => kv.1 ∈ req)).toFinset

/-- Lookup in `_compiler_output_by_param_values`. -/
def cacheLookup (c : List (Finset (String × ℚ) × RtOutput))
    (k : Finset (String × ℚ)) : Option RtOutput :=
  (c.find? (fun kv => kv.1 == k)).map (fun kv => kv.2)

/-- The mutable state of `NtCompilerExecutor`; `compiled` is the history of
fingerprints for which `rt_compiler.run` was actually invoked (the
instrumentation the at-most-once claim is about). -/
structure NtState where
  stack : List IterationStep
  cache : List (Finset (String × ℚ) × RtOutput)
  last_output : Option RtOutput := none
  required : Option (Finset String) := none
  combined : Option CombinedOutput := none
  compiled : List (Finset (String × ℚ)) := []

/-- The operations the `ExecutorBase` walk dispatches to the executor:
modelled from the spec (loop entry/exit, parameter set and real-time section
callbacks; the handler bodies themselves are `src/` code). -/
inductive NtOp where
  | enterLoop (index : ℕ)
  | setParam (name : String) (value : ℚ)
  | rtSection
  | exitLoop
  deriving DecidableEq, Repr

/-- Folding a fresh compiler output into the combined output:
`rt_linker.from_single_run` when none exists yet (modelled from the spec as
taking over the execution time), otherwise `merge_compiler_runs` followed by
the explicit accumulation of `total_execution_time` done in `rt_handler`. -/
def mkCombined : Option CombinedOutput → RtOutput → CombinedOutput
  | none, out => ⟨out.total_execution_time⟩
  | some c, out => ⟨c.total_execution_time + out.total_execution_time⟩

/-- The compilation path of `rt_handler`: run the real-time compiler on the
current parameter store, record (first invocation) or assert (later
invocations) the required-parameter set, insert the output into the cache
under its fingerprint and fold it into the combined output. -/
def compileStep (comp : RtCompiler) (s : NtState) : Except String NtState :=
  match s.required with
  | none =>
    Except.ok { s with
      required := some (comp.queries (ntParameterValues s.stack))
      cache := s.cache ++ [(frozenRequired (ntParameterValues s.stack)
        (comp.queries (ntParameterValues s.stack)),
        comp.run (ntParameterValues s.stack))]
      combined := some (mkCombined s.combined (comp.run (ntParameterValues s.stack)))
      last_output := some (comp.run (ntParameterValues s.stack))
      compiled := s.compiled ++ [frozenRequired (ntParameterValues s.stack)
        (comp.queries (ntParameterValues s.stack))] }
  | some S =>
    if comp.queries (ntParameterValues s.stack) = S then
      Except.ok { s with
        required := some S
        cache := s.cache ++ [(frozenRequired (ntParameterValues s.stack) S,
          comp.run (ntParameterValues s.stack))]
        combined := some (mkCombined s.combined (comp.run (ntParameterValues s.stack)))
        last_output := some (comp.run (ntParameterValues s.stack))
        compiled := s.compiled ++ [frozenRequired (ntParameterValues s.stack) S] }
    else Except.error "assert: required parameter set changed between compilations"

/-- One executor callback (`for_loop_handler` entry/exit,
`set_sw_param_handler`, `rt_handler`): the cache-hit path reuses the cached
output and accumulates only its `total_execution_time`; otherwise the
compilation path runs. -/
def step (comp : RtCompiler) : NtOp → NtState → Except String NtState
  | NtOp.enterLoop idx, s =>
    Except.ok { s with stack := s.stack ++ [{ index := idx, parameter_values := [] }] }
  | NtOp.setParam k v, s =>
    match setInLast s.stack k v with
    | none => Except.error "set_parameter_value on empty iteration stack"
    | some st => Except.ok { s with stack := st }
  | NtOp.exitLoop, s =>
    if s.stack = [] then Except.error "pop from empty iteration stack"
    else Except.ok { s with stack := s.stack.dropLast }
  | NtOp.rtSection, s =>
    match s.required with
    | some Q =>
      match cacheLookup s.cache (frozenRequired (ntParameterValues s.stack) Q) with
      | some out =>
        match s.combined with
        | none => Except.error "combined output missing on cache hit"
        | some c =>
          Except.ok { s with
            last_output := some out
            combined := some ⟨c.total_execution_time + out.total_execution_time⟩ }
      | none => compileStep comp s
    | none => compileStep comp s

/-- The whole near-time walk: fold the callbacks. -/
def runOps (comp : RtCompiler) : List NtOp → NtState → Except String NtState
  | [], s => Except.ok s
  | op :: rest, s =>
    match step comp op s with
    | Except.error e => Except.error e
    | Except.ok s2 => runOps comp rest s2

/-- The executor before the walk starts. -/
def initState : NtState :=
  { stack := [], cache := [] }

lemma cacheLookup_cons (kv : Finset (String × ℚ) × RtOutput)
    (c2 : List (Finset (String × ℚ) × RtOutput)) (k : Finset (String × ℚ)) :
    cacheLookup (kv :: c2) k
      = if (kv.1 == k) = true then some kv.2 else cacheLookup c2 k := by
  unfold cacheLookup
  by_cases hk : (kv.1 == k) = true <;> simp [List.find?_cons, hk]

lemma cacheLookup_append_isSome {c : List (Finset (String × ℚ) × RtOutput)}
    (d : List (Finset (String × ℚ) × RtOutput)) {k : Finset (String × ℚ)}
    (h : (cacheLookup c k).isSome) : (cacheLookup (c ++ d) k).isSome := by
  induction c with
  | nil => simp [cacheLookup] at h
  | cons kv c2 ih =>
    rw [List.cons_append, cacheLookup_cons]
    rw [cacheLookup_cons] at h
    by_cases hk : (kv.1 == k) = true
    · rw [if_pos hk]
      simp
    · rw [if_neg hk] at h ⊢
      exact ih h

lemma cacheLookup_append_self (c : List (Finset (String × ℚ) × RtOutput))
    (k : Finset (String × ℚ)) (v : RtOutput) :
    (cacheLookup (c ++ [(k, v)]) k).isSome := by
  induction c with
  | nil => simp [cacheLookup]
  | cons kv c2 ih =>
    rw [List.cons_append, cacheLookup_cons]
    by_cases hk : (kv.1 == k) = true
    · rw [if_pos hk]
      simp
    · rw [if_neg hk]
      exact ih

/-- The at-most-once invariant of the executor: the log of performed
compilations has no duplicate fingerprint, every compiled fingerprint is
cached, the log and cache are empty before the required set is known, and
the required set, once known, is the compiler's fixed query set. -/
def ExecInv (Q : Finset String) (s : NtState) : Prop :=
  s.compiled.Nodup
  ∧ (∀ fp ∈ s.compiled, (cacheLookup s.cache fp).isSome)
  ∧ (s.required = none → s.compiled = [] ∧ s.cache = [])
  ∧ (∀ S, s.required = some S → S = Q)

lemma compileStep_inv {comp : RtCompiler} {Q : Finset String}
    (hq : ∀ st, comp.queries st = Q) {s s2 : NtState}
    (h : compileStep comp s = Except.ok s2) (hinv : ExecInv Q s)
    (hmiss : ∀ S, s.required = some S →
      cacheLookup s.cache (frozenRequired (ntParameterValues s.stack) S) = none) :
    ExecInv Q s2 := by
  obtain ⟨hnd, hcached, hnone, hreqQ⟩ := hinv
  unfold compileStep at h
  cases hreq : s.required with
  | none =>
    rw [hreq] at h
    obtain ⟨hc, hk⟩ := hnone hreq
    injection h with h
    subst h
    refine ⟨?_, ?_, ?_, ?_⟩
    · rw [hc]
      exact List.nodup_singleton _
    · intro fp hfp
      rw [hc] at hfp
      rw [List.nil_append, List.mem_singleton] at hfp
      rw [hfp, hk]
      exact cacheLookup_append_self [] _ _
    · intro habs
      cases habs
    · intro S hS
      injection hS with hS
      rw [← hS, hq]
  | some S =>
    rw [hreq] at h
    simp only [compileStep] at h
    have hSQ := hreqQ S hreq
    by_cases hTS : comp.queries (ntParameterValues s.stack) = S
    · rw [if_pos hTS] at h
      injection h with h
      subst h
      have hfpnotin : frozenRequired (ntParameterValues s.stack) S ∉ s.compiled := by
        intro habs
        have := hcached _ habs
        rw [hmiss S hreq] at this
        cases this
      refine ⟨?_, ?_, ?_, ?_⟩
      · rw [List.nodup_append]
        exact ⟨hnd, List.nodup_singleton _,
          by
            intro a ha hb
            rw [List.mem_singleton] at hb
            exact hfpnotin (hb ▸ ha)⟩
      · intro fp hfp
        rw [List.mem_append, List.mem_singleton] at hfp
        rcases hfp with hfp | hfp
        · exact cacheLookup_append_isSome _ (hcached fp hfp)
        · rw [hfp]
          exact cacheLookup_append_self _ _ _
      · intro habs
        cases habs
      · intro S2 hS2
        injection hS2 with hS2
        rw [← hS2]
        exact hSQ
    · rw [if_neg hTS] at h
      cases h

lemma step_inv {comp : RtCompiler} {Q : Finset String}
    (hq : ∀ st, comp.queries st = Q) {op : NtOp} {s s2 : NtState}
    (h : step comp op s = Except.ok s2) (hinv : ExecInv Q s) : ExecInv Q s2 := by
  obtain ⟨hnd, hcached, hnone, hreqQ⟩ := hinv
  cases op with
  | enterLoop idx =>
    injection h with h
    subst h
    exact ⟨hnd, hcached, hnone, hreqQ⟩
  | setParam k v =>
    simp only [step] at h
    cases hset : setInLast s.stack k v with
    | none => rw [hset] at h; cases h
    | some st =>
      rw [hset] at h
      injection h with h
      subst h
      exact ⟨hnd, hcached, hnone, hreqQ⟩
  | exitLoop =>
    simp only [step] at h
    by_cases hst : s.stack = []
    · rw [if_pos hst] at h; cases h
    · rw [if_neg hst] at h
      injection h with h
      subst h
      exact ⟨hnd, hcached, hnone, hreqQ⟩
  | rtSection =>
    simp only [step] at h
    split at h
    · rename_i S hreq
      split at h
      · rename_i out hlook
        split at h
        · cases h
        · rename_i c hcomb
          injection h with h
          subst h
          exact ⟨hnd, hcached, hnone, hreqQ⟩
      · rename_i hlook
        exact compileStep_inv hq h ⟨hnd, hcached, hnone, hreqQ⟩
          (fun S2 hS2 => by
            rw [hreq] at hS2
            injection hS2 with hS2
            rw [← hS2]
            exact hlook)
    · rename_i hreq
      exact compileStep_inv hq h ⟨hnd, hcached, hnone, hreqQ⟩
        (fun S hS => by rw [hreq] at hS; cases hS)

lemma runOps_inv {comp : RtCompiler} {Q : Finset String}
    (hq : ∀ st, comp.queries st = Q) :
    ∀ (prog : List NtOp) {s s2 : NtState},
    runOps comp prog s = Except.ok s2 → ExecInv Q s → ExecInv Q s2 := by
  intro prog
  induction prog with
  | nil =>
    intro s s2 h hinv
    injection h with h
    subst h
    exact hinv
  | cons op rest ih =>
    intro s s2 h hinv
    unfold runOps at h
    cases hstep : step comp op s with
    | error e => rw [hstep] at h; cases h
    | ok s3 =>
      rw [hstep] at h
      exact ih h (step_inv hq hstep hinv)

lemma initState_inv (Q : Finset String) : ExecInv Q initState :=
  ⟨List.nodup_nil, fun fp hfp => absurd hfp (List.not_mem_nil fp),
   fun _ => ⟨rfl, rfl⟩, fun S hS => by cases hS⟩

/-- The compiler of the 2D sweep scenario: the real-time section reads only
parameter `a`. -/
def scenarioCompiler : RtCompiler :=
  { run := fun _ => ⟨1⟩, queries := fun _ => {"a"} }

/-- The 2D near-time sweep `a ∈ {1,2}, b ∈ {1,2}` as the sequence of executor
callbacks (loop entry, parameter set, real-time section, loop exit). -/
def scenarioProg : List NtOp :=
  [NtOp.enterLoop 0, NtOp.setParam "a" 1,
     NtOp.enterLoop 0, NtOp.setParam "b" 1, NtOp.rtSection, NtOp.exitLoop,
     NtOp.enterLoop 1, NtOp.setParam "b" 2, NtOp.rtSection, NtOp.exitLoop,
   NtOp.exitLoop,
   NtOp.enterLoop 1, NtOp.setParam "a" 2,
     NtOp.enterLoop 0, NtOp.setParam "b" 1, NtOp.rtSection, NtOp.exitLoop,
     NtOp.enterLoop 1, NtOp.setParam "b" 2, NtOp.rtSection, NtOp.exitLoop,
   NtOp.exitLoop]

/-- Claim C1: for a fixed required-parameter set, `rt_compiler.run` is
invoked at most once per distinct required-parameter value-combination (the
log of compiled fingerprints has no duplicates, however many iterations the
near-time walk visits); on a cache hit the compiler is not re-invoked and
only the cached output's `total_execution_time` is accumulated into the
combined output; and in the 2D sweep `a ∈ {1,2}, b ∈ {1,2}` whose real-time
section reads only `a`, exactly 2 compilations occur. -/
theorem C1_cache_at_most_one_compile :
    (∀ (comp : RtCompiler) (Q : Finset String),
      (∀ st, comp.queries st = Q) →
      ∀ (prog : List NtOp) (s2 : NtState),
        runOps comp prog initState = Except.ok s2 → s2.compiled.Nodup)
    ∧ (∀ (comp : RtCompiler) (s : NtState) (Q : Finset String)
        (out : RtOutput) (c : CombinedOutput),
        s.required = some Q →
        cacheLookup s.cache (frozenRequired (ntParameterValues s.stack) Q)
          = some out →
        s.combined = some c →
        step comp NtOp.rtSection s
          = Except.ok { s with
              last_output := some out
              combined := some ⟨c.total_execution_time
                + out.total_execution_time⟩ })
    ∧ (runOps scenarioCompiler scenarioProg initState).map
        (fun s => s.compiled.length) = Except.ok 2 := by
  refine ⟨?_, ?_, ?_⟩
  · intro comp Q hq prog s2 hrun
    exact (runOps_inv hq prog hrun (initState_inv Q)).1
  · intro comp s Q out c hreq hlook hcomb
    simp only [step, hreq, hlook, hcomb]
  · with_unfolding_all rfl

/-- The final state of the 2D sweep scenario. -/
def scenarioFinal : NtState :=
  match runOps scenarioCompiler scenarioProg initState with
  | Except.ok s => s
  | Except.error _ => initState

/-- Executor state sitting on a cache entry for `a = 1`. -/
def hitState : NtState :=
  { stack := [{ index := 0, parameter_values := [("a", 1), ("b", 1)] }],
    cache := [({("a", 1)}, ⟨5⟩)],
    last_output := none,
    required := some {"a"},
    combined := some ⟨5⟩,
    compiled := [{("a", 1)}] }

/-- Witness for claim C1: the scenario run succeeds with a duplicate-free
compilation log (apply the at-most-once part), and a concrete cache hit
reuses the cached output, accumulating only its execution time. -/
theorem C1_cache_witness :
    (∀ st, scenarioCompiler.queries st = ({"a"} : Finset String))
    ∧ runOps scenarioCompiler scenarioProg initState = Except.ok scenarioFinal
    ∧ scenarioFinal.compiled.Nodup
    ∧ hitState.required = some {"a"}
    ∧ cacheLookup hitState.cache
        (frozenRequired (ntParameterValues hitState.stack) {"a"})
        = some ⟨5⟩
    ∧ hitState.combined = some ⟨5⟩
    ∧ step scenarioCompiler NtOp.rtSection hitState
        = Except.ok { hitState with
            last_output := some ⟨5⟩
            combined := some ⟨(5 : ℚ) + 5⟩ } := by
  have hrun : runOps scenarioCompiler scenarioProg initState
      = Except.ok scenarioFinal := by
    with_unfolding_all rfl
  have hlook : cacheLookup hitState.cache
      (frozenRequired (ntParameterValues hitState.stack) {"a"})
      = some ⟨5⟩ := by
    with_unfolding_all rfl
  exact ⟨fun st => rfl, hrun,
    C1_cache_at_most_one_compile.1 scenarioCompiler {"a"} (fun st => rfl)
      scenarioProg scenarioFinal hrun,
    rfl, hlook, rfl,
    C1_cache_at_most_one_compile.2.1 scenarioCompiler hitState {"a"} ⟨5⟩ ⟨5⟩
      rfl hlook rfl⟩

/-- Claim C7: the required-parameter set is write-once.  It is recorded from
the tracker's queries on the first compilation; it never changes on any
successful step; and a later compilation whose consumed name set differs
fails with a fatal internal-consistency (assertion) error instead of
continuing. -/
theorem C7_required_parameters_write_once :
    (∀ (comp : RtCompiler) (s s2 : NtState),
        s.required = none → step comp NtOp.rtSection s = Except.ok s2 →
        s2.required = some (comp.queries (ntParameterValues s.stack)))
    ∧ (∀ (comp : RtCompiler) (op : NtOp) (s s2 : NtState) (S : Finset String),
        s.required = some S → step comp op s = Except.ok s2 →
        s2.required = some S)
    ∧ (∀ (comp : RtCompiler) (s : NtState) (S : Finset String),
        s.required = some S →
        comp.queries (ntParameterValues s.stack) ≠ S →
        cacheLookup s.cache (frozenRequired (ntParameterValues s.stack) S)
          = none →
        step comp NtOp.rtSection s
          = Except.error
              "assert: required parameter set changed between compilations") := by
  refine ⟨?_, ?_, ?_⟩
  · intro comp s s2 hreq h
    simp only [step, hreq, compileStep] at h
    injection h with h
    rw [← h]
  · intro comp op s s2 S hreq h
    cases op with
    | enterLoop idx =>
      injection h with h
      rw [← h]
      exact hreq
    | setParam k v =>
      simp only [step] at h
      cases hset : setInLast s.stack k v with
      | none => rw [hset] at h; cases h
      | some st =>
        rw [hset] at h
        injection h with h
        rw [← h]
        exact hreq
    | exitLoop =>
      simp only [step] at h
      by_cases hst : s.stack = []
      · rw [if_pos hst] at h; cases h
      · rw [if_neg hst] at h
        injection h with h
        rw [← h]
        exact hreq
    | rtSection =>
      simp only [step, hreq, compileStep] at h
      split at h
      · split at h
        · cases h
        · injection h with h
          rw [← h]
      · split at h
        · injection h with h
          rw [← h]
        · cases h
  · intro comp s S hreq hne hlook
    simp only [step, hreq, hlook, compileStep]
    rw [if_neg hne]

/-- Compiler that consumes parameter `b` (instead of the recorded `a`). -/
def mismatchCompiler : RtCompiler :=
  { run := fun _ => ⟨1⟩, queries := fun _ => {"b"} }

/-- Executor state with recorded required set `{a}` and an empty cache. -/
def mismatchState : NtState :=
  { stack := [{ index := 0, parameter_values := [("a", 2)] }],
    cache := [],
    last_output := none,
    required := some {"a"},
    combined := some ⟨1⟩,
    compiled := [] }

/-- Executor state before the first compilation. -/
def freshState : NtState :=
  { stack := [{ index := 0, parameter_values := [("a", 1)] }],
    cache := [] }

/-- The state after the first compilation on `freshState`. -/
def freshResult : NtState :=
  match step scenarioCompiler NtOp.rtSection freshState with
  | Except.ok s => s
  | Except.error _ => freshState

/-- Witness for claim C7 at concrete states: the first compilation records
the query set, a loop entry keeps it, and a mismatching later compilation
fails with the assertion error. -/
theorem C7_write_once_witness :
    freshState.required = none
    ∧ step scenarioCompiler NtOp.rtSection freshState = Except.ok freshResult
    ∧ freshResult.required
        = some (scenarioCompiler.queries (ntParameterValues freshState.stack))
    ∧ mismatchState.required = some {"a"}
    ∧ step mismatchCompiler (NtOp.enterLoop 1) mismatchState
        = Except.ok { mismatchState with
            stack := mismatchState.stack
              ++ [{ index := 1, parameter_values := [] }] }
    ∧ ({ mismatchState with
          stack := mismatchState.stack
            ++ [{ index := 1, parameter_values := [] }] } : NtState).required
        = some {"a"}
    ∧ mismatchCompiler.queries (ntParameterValues mismatchState.stack)
        ≠ ({"a"} : Finset String)
    ∧ cacheLookup mismatchState.cache
        (frozenRequired (ntParameterValues mismatchState.stack) {"a"}) = none
    ∧ step mismatchCompiler NtOp.rtSection mismatchState
        = Except.error
            "assert: required parameter set changed between compilations" := by
  have hstep : step scenarioCompiler NtOp.rtSection freshState
      = Except.ok freshResult := by
    with_unfolding_all rfl
  have hne : mismatchCompiler.queries (ntParameterValues mismatchState.stack)
      ≠ ({"a"} : Finset String) := by
    with_unfolding_all decide
  exact ⟨rfl, hstep,
    C7_required_parameters_write_once.1 scenarioCompiler freshState freshResult
      rfl hstep,
    rfl, rfl,
    C7_required_parameters_write_once.2.1 mismatchCompiler (NtOp.enterLoop 1)
      mismatchState _ {"a"} rfl rfl,
    hne, rfl,
    C7_required_parameters_write_once.2.2 mismatchCompiler mismatchState {"a"}
      rfl hne rfl⟩

end LabOneQ
